import Mathlib

/-!
Verification of the genomic interval engine of the `algorithm-playground`
repository (`src/ATAC/`): interval merge (`interval_merge.py`,
`union_peak.py`), pairwise overlap sweeps (`interval_overlap.py`), union
peak construction (`union_peak.py`) and peak annotation
(`peak_annotation.py`).

Python lists of `(start, end)` tuples are modelled as `List (Int × Int)`;
genomic intervals `(chrom, start, end)` as `String × Int × Int`.  Python's
stable `list.sort` is modelled by `List.mergeSort` (also a stable sort)
with the same comparison key.  Python `while` loops over advancing indices
are modelled by recursion on the remaining suffixes of the scanned lists.
-/

set_option maxHeartbeats 1600000

namespace ATAC

/-- 1D half-open interval `(start, end)`, as in the Python tuples. -/
abbrev Interval := Int × Int

/-- Genomic interval `(chrom, start, end)`. -/
abbrev GenomicInterval := String × Int × Int

/-- `intervals_overlap` from `src/ATAC/interval_overlap.py` (also the
local `overlaps` in `union_peak.py` and `intervals_overlap` in
`peak_annotation.py`): half-open intervals overlap iff
`a_start < b_end and b_start < a_end`. -/
def intervals_overlap (a b : Interval) : Bool :=
  decide (a.1 < b.2) && decide (b.1 < a.2)

/-- Python's stable in-place `intervals.sort(key=lambda x: x[0])`:
a stable sort by start coordinate.  `List.mergeSort` is a stable sort,
so it computes the same list as CPython's stable `list.sort`. -/
def sortByStart (l : List Interval) : List Interval :=
  l.mergeSort (fun a b => decide (a.1 ≤ b.1))

/-- The `for cur_start, cur_end in intervals[1:]` loop shared by
`merge_intervals` (`interval_merge.py`) and `merge_intervals_1d`
(`union_peak.py`).  The first argument is `merged[-1]`; when
`cur_start <= last_end` the last accumulated interval is widened to
`(last_start, max(last_end, cur_end))`, otherwise it is emitted and the
current interval becomes the new last one. -/
def mergeLoop : Interval → List Interval → List Interval
  | last, [] => [last]
  | last, cur :: rest =>
    if cur.1 ≤ last.2 then mergeLoop (last.1, max last.2 cur.2) rest
    else last :: mergeLoop cur rest

/-- `merge_intervals` from `src/ATAC/interval_merge.py`: empty input gives
`[]`; otherwise sort by start and fold with `mergeLoop` starting from the
first sorted interval. -/
def merge_intervals (intervals : List Interval) : List Interval :=
  match sortByStart intervals with
  | [] => []
  | x :: rest => mergeLoop x rest

/-- `merge_intervals_1d` from `src/ATAC/union_peak.py`; its body is
identical to `merge_intervals`. -/
def merge_intervals_1d (intervals : List Interval) : List Interval :=
  match sortByStart intervals with
  | [] => []
  | x :: rest => mergeLoop x rest

/-- The `while i < len(a) and j < len(b)` loop of `find_overlaps_1d`:
the two lists are the unprocessed suffixes `a[i:]` and `b[j:]`, and
`i`, `j` are the current pointer values (used only to build the emitted
index pairs).  At each step the current pair is tested, emitted if it
overlaps, and the pointer with the smaller end coordinate advances
(`i` advances on ties). -/
def overlapLoop (x y : List Interval) (i j : Nat) : List (Nat × Nat) :=
  match x, y with
  | [], _ => []
  | _ :: _, [] => []
  | a :: ra, b :: rb =>
    (if intervals_overlap a b then [(i, j)] else []) ++
      (if a.2 ≤ b.2 then overlapLoop ra (b :: rb) (i + 1) j
       else overlapLoop (a :: ra) rb i (j + 1))
termination_by x.length + y.length

/-- `find_overlaps_1d` from `src/ATAC/interval_overlap.py`: copy both
inputs (`a = list(intervals_a)`), sort each copy by start, then run the
two-pointer sweep from `(0, 0)`.  The returned indices refer to the
sorted copies. -/
def find_overlaps_1d (intervals_a intervals_b : List Interval) :
    List (Nat × Nat) :=
  overlapLoop (sortByStart intervals_a) (sortByStart intervals_b) 0 0

/-- Stable sort of `(start, end, original_index)` triples by start, as in
`grouped_a[chrom].sort(key=lambda x: x[0])`. -/
def sortByStartIdx (l : List (Int × Int × Nat)) : List (Int × Int × Nat) :=
  l.mergeSort (fun a b => decide (a.1 ≤ b.1))

/-- The per-chromosome list `grouped_a[chrom]` built by
`find_overlaps_genomic`: `(start, end, original_index)` triples of the
intervals on chromosome `c`, in input order, then sorted by start. -/
def groupWithIdx (l : List GenomicInterval) (c : String) :
    List (Int × Int × Nat) :=
  sortByStartIdx ((l.enum.filter (fun p => decide (p.2.1 = c))).map
    (fun p => (p.2.2.1, p.2.2.2, p.1)))

/-- The inner `while` loop of `find_overlaps_genomic`, over
`(start, end, original_index)` triples; emitted pairs use the original
indices. -/
def overlapLoopG (x y : List (Int × Int × Nat)) : List (Nat × Nat) :=
  match x, y with
  | [], _ => []
  | _ :: _, [] => []
  | a :: ra, b :: rb =>
    (if decide (a.1 < b.2.1) && decide (b.1 < a.2.1) then [(a.2.2, b.2.2)] else []) ++
      (if a.2.1 ≤ b.2.1 then overlapLoopG ra (b :: rb)
       else overlapLoopG (a :: ra) rb)
termination_by x.length + y.length

/-- The distinct chromosomes of a genomic interval list, in first
occurrence order (Python `dict` key order). -/
def chromsOf (l : List GenomicInterval) : List String :=
  (l.map (fun p => p.1)).dedup

/-- `find_overlaps_genomic` from `src/ATAC/interval_overlap.py`.  Python
iterates `grouped_a.keys() & grouped_b.keys()` in unspecified set order;
we fix ascending chromosome order.  Per-chromosome sweeps are
independent, so each chromosome's contribution to the output does not
depend on that iteration order (all theorems below about this function
concern single-chromosome inputs or per-pair membership). -/
def find_overlaps_genomic (intervals_a intervals_b : List GenomicInterval) :
    List (Nat × Nat) :=
  (((chromsOf intervals_a).filter
      (fun c => decide (c ∈ chromsOf intervals_b))).mergeSort
      (fun a b => decide (a ≤ b))).flatMap
    (fun c => overlapLoopG (groupWithIdx intervals_a c) (groupWithIdx intervals_b c))

/-! ### Caller-visible effect of each engine operation on its inputs

Python lists are mutable; the only in-place operation any engine function
performs is `list.sort`.  For each public operation we record, as a
`..._post` function, the final contents of the collections the caller
passed in, read off from the source. -/

/-- After `merge_intervals(intervals)` returns, the caller's list has
been sorted in place by `intervals.sort(key=lambda x: x[0])` (on empty
input the early `return []` fires and nothing changes, and sorting an
empty list is also the identity). -/
def merge_intervals_post (intervals : List Interval) : List Interval :=
  sortByStart intervals

/-- `merge_intervals_1d` from `union_peak.py` sorts its argument in place
exactly as `merge_intervals` does. -/
def merge_intervals_1d_post (intervals : List Interval) : List Interval :=
  sortByStart intervals

/-- `find_overlaps_1d` sorts fresh copies (`a = list(intervals_a)`;
`b = list(intervals_b)`), so both caller lists are unchanged. -/
def find_overlaps_1d_post (intervals_a intervals_b : List Interval) :
    List Interval × List Interval :=
  (intervals_a, intervals_b)

/-- `find_overlaps_genomic` only reads its inputs while building fresh
per-chromosome lists, and sorts those fresh lists; the caller's lists are
unchanged. -/
def find_overlaps_genomic_post (intervals_a intervals_b : List GenomicInterval) :
    List GenomicInterval × List GenomicInterval :=
  (intervals_a, intervals_b)

/-! ### Union peak construction (`src/ATAC/union_peak.py`) -/

/-- `peaks_by_sample`: a Python dict `sample_id -> [(chrom, start, end)]`,
modelled as an association list in dict iteration (insertion) order. -/
abbrev PeaksBySample := List (String × List GenomicInterval)

/-- All peaks of all samples in the iteration order of the
`for sample, peaks in peaks_by_sample.items(): for chrom, start, end in peaks:`
loops. -/
def allPeaks (pbs : PeaksBySample) : List GenomicInterval :=
  pbs.flatMap (fun p => p.2)

/-- `chrom_to_all_intervals[c]`: the `(start, end)` pairs of all peaks on
chromosome `c`, appended in iteration order. -/
def chromToAll (pbs : PeaksBySample) (c : String) : List Interval :=
  (allPeaks pbs).filterMap
    (fun q => if q.1 = c then some (q.2.1, q.2.2) else none)

/-- `sorted(chrom_to_all_intervals.keys())`: the distinct chromosomes in
ascending lexicographic order (sorting makes the dict key order
immaterial). -/
def sortedChroms (pbs : PeaksBySample) : List String :=
  (chromsOf (allPeaks pbs)).mergeSort (fun a b => decide (a ≤ b))

/-- `union_list` built by `union_peaks`: per chromosome in ascending
order, the merged pool of all samples' intervals, tagged with the
chromosome. -/
def union_peaks_list (pbs : PeaksBySample) : List GenomicInterval :=
  (sortedChroms pbs).flatMap
    (fun c => (merge_intervals_1d (chromToAll pbs c)).map (fun q => (c, q.1, q.2)))

/-- `union_peaks` always returns the caller's mapping unchanged: it only
reads `peaks_by_sample` while building fresh per-chromosome lists, and
the in-place sorts inside (`merge_intervals_1d`, `union_by_chrom[...]`)
act on those fresh lists. -/
def union_peaks_post (pbs : PeaksBySample) : PeaksBySample := pbs

/-- `chrom_to_sample_intervals[c][sample]` for one sample's peak list:
its `(start, end)` pairs on chromosome `c`, in input order. -/
def sampleIntervalsOn (peaks : List GenomicInterval) (c : String) : List Interval :=
  peaks.filterMap (fun q => if q.1 = c then some (q.2.1, q.2.2) else none)

/-- `union_by_chrom[c]` of `union_peaks`, reduced to `(start, end)` pairs:
the union peaks on chromosome `c`, re-sorted by start as in the source
(the carried `u_key` is just `(c, start, end)` again). -/
def unionByChrom (pbs : PeaksBySample) (c : String) : List Interval :=
  sortByStart ((union_peaks_list pbs).filterMap
    (fun q => if q.1 = c then some (q.2.1, q.2.2) else none))

/-- The membership sweep of `union_peaks` for one (chromosome, sample)
pair: two pointers over the sample's sorted intervals and the
chromosome's union peaks; each time the current pair overlaps, the
current union peak is recorded (the source appends `sample` to
`membership[u_key]`, which is determined by which union peaks are hit);
then the pointer with the smaller end advances (`i` on ties). -/
def sweepHits (ints unions : List Interval) : List Interval :=
  match ints, unions with
  | [], _ => []
  | _ :: _, [] => []
  | s :: ri, u :: ru =>
    (if intervals_overlap s u then [u] else []) ++
      (if s.2 ≤ u.2 then sweepHits ri (u :: ru) else sweepHits (s :: ri) ru)
termination_by ints.length + unions.length

/-- `sorted(set(xs))` for a list of strings: the distinct elements in
ascending order. -/
def sortedSetStr (xs : List String) : List String :=
  xs.dedup.mergeSort (fun a b => decide (a ≤ b))

/-- `membership[u]` as returned by `union_peaks(..., return_membership=True)`:
every sample whose per-chromosome sweep on `u`'s chromosome hits `u`,
deduplicated and sorted (`membership[k] = sorted(set(membership[k]))`).
Sweeps on chromosomes other than `u`'s only ever record union peaks of
those chromosomes, whose keys differ from `u`, so only the sweep on
`u`'s own chromosome can contribute, and the append order across the
chromosome/sample loops is erased by `sorted(set(...))`. -/
def union_peaks_membership (pbs : PeaksBySample) (u : GenomicInterval) : List String :=
  sortedSetStr (pbs.filterMap (fun p =>
    if (u.2.1, u.2.2) ∈
        sweepHits (sortByStart (sampleIntervalsOn p.2 u.1)) (unionByChrom pbs u.1)
    then some p.1 else none))

/-! ### Peak annotation (`src/ATAC/peak_annotation.py`) -/

/-- The `GeneRecord` dataclass; `stop` stands for the Python field `end`
(0-based half-open). -/
structure GeneRecord where
  chrom : String
  start : Int
  stop : Int
  strand : String
  gene_id : String
  gene_name : String
  tss : Int
deriving DecidableEq

/-- The `FeatureInterval` dataclass; `stop` stands for the Python field
`end`. -/
structure FeatureInterval where
  chrom : String
  start : Int
  stop : Int
  gene_name : String
  tss : Int
deriving DecidableEq

/-- `intervals_overlap` from `peak_annotation.py`, on explicit
coordinates. -/
def intervals_overlap_coords (a_start a_end b_start b_end : Int) : Bool :=
  decide (a_start < b_end) && decide (b_start < a_end)

/-- `build_promoters`: a strand-aware promoter window per gene, clamped
at 0, discarded unless `p_end > p_start`. -/
def build_promoters (genes : List GeneRecord) (upstream downstream : Int) :
    List FeatureInterval :=
  genes.filterMap (fun g =>
    let p_start := if g.strand = "+" then max 0 (g.tss - upstream)
      else max 0 (g.tss - downstream)
    let p_end := if g.strand = "+" then g.tss + downstream else g.tss + upstream
    if p_start < p_end then some ⟨g.chrom, p_start, p_end, g.gene_name, g.tss⟩
    else none)

/-- The gene bodies reinterpreted as `FeatureInterval`s in `annotate_peaks`. -/
def geneBodies (genes : List GeneRecord) : List FeatureInterval :=
  genes.map (fun g => ⟨g.chrom, g.start, g.stop, g.gene_name, g.tss⟩)

/-- Stable sort of features by start (`grouped[chrom].sort(key=lambda x: x.start)`). -/
def sortFeatsByStart (l : List FeatureInterval) : List FeatureInterval :=
  l.mergeSort (fun a b => decide (a.start ≤ b.start))

/-- `group_by_chrom_intervals(...)[c]`: the features on chromosome `c`
in input order, sorted by start (empty list when `c` is not a key). -/
def group_by_chrom_intervals (feats : List FeatureInterval) (c : String) :
    List FeatureInterval :=
  sortFeatsByStart (feats.filter (fun f => decide (f.chrom = c)))

/-- `group_by_chrom_peaks(...)[c]`: `(start, end, peak_index)` triples of
the peaks on chromosome `c`, sorted by start — the same construction as
the inline grouping of `find_overlaps_genomic`. -/
def group_by_chrom_peaks (peaks : List GenomicInterval) (c : String) :
    List (Int × Int × Nat) :=
  groupWithIdx peaks c

/-- The peak loop of `annotate_overlaps` for one chromosome.  The shared
pointer `j` is modelled by the remaining feature suffix `fl`: the
`while ... f_list[j].end <= pstart: j += 1` advance is `dropWhile`, and
the forward scan from `k = j` collects, among features with
`start < pend` (`takeWhile`), those that strictly overlap the peak
(`filter`); `hits.setdefault(pidx, []).extend(cand)` runs only when
`cand` is nonempty. -/
def annotateSweep :
    List FeatureInterval → List (Int × Int × Nat) → List (Nat × List FeatureInterval)
  | _, [] => []
  | fl, (ps, pe, pidx) :: rest =>
    let fl' := fl.dropWhile (fun f => decide (f.stop ≤ ps))
    let cand := (fl'.takeWhile (fun f => decide (f.start < pe))).filter
      (fun f => intervals_overlap_coords ps pe f.start f.stop)
    (if cand.isEmpty then [] else [(pidx, cand)]) ++ annotateSweep fl' rest

/-- Reading the `hits` dict at key `pidx`: all candidate lists recorded
for `pidx`, concatenated (`setdefault(pidx, []).extend(cand)`); missing
key reads as `[]`. -/
def hitsLookup (h : List (Nat × List FeatureInterval)) (pidx : Nat) :
    List FeatureInterval :=
  (h.filterMap (fun q => if q.1 = pidx then some q.2 else none)).flatten

/-- `annotate_overlaps(peaks, feature_grouped)` read at peak index
`pidx`.  Each peak index occurs in exactly one chromosome's group, so
the unspecified iteration order of
`peak_grouped.keys() & feature_grouped.keys()` does not affect the entry
for `pidx`: it is produced by the sweep on that peak's own chromosome
(and chromosomes missing from `feature_grouped` read as an empty feature
list, which yields no candidates, matching the key-intersection skip). -/
def annotate_overlaps (peaks : List GenomicInterval)
    (fg : String → List FeatureInterval) (pidx : Nat) : List FeatureInterval :=
  match peaks[pidx]? with
  | none => []
  | some p => hitsLookup (annotateSweep (fg p.1) (group_by_chrom_peaks peaks p.1)) pidx

/-- `build_tss_index(genes)[c]`, with the two aligned arrays
`(sorted_tss_positions, gene_names)` kept as one list of
`(tss, gene_name)` pairs: the genes on chromosome `c` in input order,
stably sorted by TSS (`arr.sort(key=lambda x: x[0])`). -/
def build_tss_index (genes : List GeneRecord) (c : String) : List (Int × String) :=
  ((genes.filter (fun g => decide (g.chrom = c))).map
    (fun g => (g.tss, g.gene_name))).mergeSort (fun a b => decide (a.1 ≤ b.1))

/-- CPython's `bisect.bisect_left(a, x)` binary-search loop:
`while lo < hi: mid = (lo+hi)//2; if a[mid] < x: lo = mid+1 else hi = mid`. -/
def bisectLoop (a : List Int) (x : Int) (lo hi : Nat) : Nat :=
  if _h : lo < hi then
    if a.getD ((lo + hi) / 2) 0 < x then bisectLoop a x ((lo + hi) / 2 + 1) hi
    else bisectLoop a x lo ((lo + hi) / 2)
  else lo
termination_by hi - lo
decreasing_by
  · omega
  · omega

/-- `bisect.bisect_left(a, x)` over the whole list. -/
def bisect_left (a : List Int) (x : Int) : Nat := bisectLoop a x 0 a.length

/-- One iteration of the `for cand in (k - 1, k)` loop of `nearest_tss`:
skip candidates outside `[0, len)`, otherwise compare `abs(pos - tss)`
against the running best with strict `<` (state:
`(best_idx, best_dist, best_signed)`, initially `(None, 10**18, 0)`). -/
def nearestStep (tl : List (Int × String)) (pos : Int)
    (st : Option Nat × Int × Int) (cand : Int) : Option Nat × Int × Int :=
  if 0 ≤ cand ∧ cand < (tl.length : Int) then
    let signed := pos - (tl.getD cand.toNat ((0 : Int), "")).1
    let dist := |signed|
    if dist < st.2.1 then (some cand.toNat, dist, signed) else st
  else st

/-- `nearest_tss(tss_list, name_list, pos)`, with the aligned lists kept
as one list of `(tss, gene_name)` pairs. -/
def nearest_tss (tl : List (Int × String)) (pos : Int) : String × Int :=
  if tl.isEmpty then ("", 0)
  else
    let k : Int := (bisect_left (tl.map (fun q => q.1)) pos : Nat)
    let st := [k - 1, k].foldl (nearestStep tl pos) (none, 10 ^ 18, 0)
    match st.1 with
    | none => ("", 0)
    | some i => ((tl.getD i ((0 : Int), "")).2, st.2.2)

/-- One iteration of the candidate loop of
`assign_best_gene_by_tss_distance` (state:
`(best_gene, best_dist, best_signed)`, initially `("", 10**18, 0)`,
strict `<` so the first minimizer wins). -/
def assignStep (center : Int) (st : String × Int × Int) (c : FeatureInterval) :
    String × Int × Int :=
  let signed := center - c.tss
  let dist := |signed|
  if dist < st.2.1 then (c.gene_name, dist, signed) else st

/-- `assign_best_gene_by_tss_distance(peak_center, candidates)`. -/
def assign_best_gene_by_tss_distance (center : Int)
    (cands : List FeatureInterval) : String × Int :=
  let st := cands.foldl (assignStep center) ("", 10 ^ 18, 0)
  (st.1, st.2.2)

/-- One output record of `annotate_peaks` (the Python dict of strings;
`stop` stands for the key `end`, `annot` for the key `annotation`). -/
structure AnnotationRow where
  peak_id : String
  chrom : String
  start : String
  stop : String
  annot : String
  gene : String
  distance_to_TSS : String
deriving DecidableEq

/-- The `promoter_hits = annotate_overlaps(peaks, promoter_grouped)`
mapping of `annotate_peaks`, read at peak index `idx`. -/
def promoter_hits (peaks : List GenomicInterval) (genes : List GeneRecord)
    (pUp pDown : Int) (idx : Nat) : List FeatureInterval :=
  annotate_overlaps peaks
    (fun ch => group_by_chrom_intervals (build_promoters genes pUp pDown) ch) idx

/-- The `gene_hits = annotate_overlaps(peaks, gene_grouped)` mapping of
`annotate_peaks`, read at peak index `idx`. -/
def gene_hits (peaks : List GenomicInterval) (genes : List GeneRecord)
    (idx : Nat) : List FeatureInterval :=
  annotate_overlaps peaks
    (fun ch => group_by_chrom_intervals (geneBodies genes) ch) idx

/-- The body of the `for idx, (chrom, start, end) in enumerate(peaks)`
loop of `annotate_peaks`.  `center = (start + end) // 2` is Python floor
division, i.e. `Int.fdiv`.  `idx in promoter_hits` holds iff the sweep
recorded a nonempty candidate list for `idx`, i.e. iff
`annotate_overlaps ... idx` is nonempty. -/
def annotateRow (peaks : List GenomicInterval) (genes : List GeneRecord)
    (pUp pDown : Int) (idx : Nat) (p : GenomicInterval) : AnnotationRow :=
  let center := Int.fdiv (p.2.1 + p.2.2) 2
  let promHits := promoter_hits peaks genes pUp pDown idx
  let geneHits := gene_hits peaks genes idx
  if promHits ≠ [] then
    let gd := assign_best_gene_by_tss_distance center promHits
    ⟨"peak_" ++ toString idx, p.1, toString p.2.1, toString p.2.2,
      "promoter", gd.1, toString gd.2⟩
  else if geneHits ≠ [] then
    let gd := assign_best_gene_by_tss_distance center geneHits
    ⟨"peak_" ++ toString idx, p.1, toString p.2.1, toString p.2.2,
      "gene_body", gd.1, toString gd.2⟩
  else
    let gd := if build_tss_index genes p.1 = [] then (("", (0 : Int)))
      else nearest_tss (build_tss_index genes p.1) center
    ⟨"peak_" ++ toString idx, p.1, toString p.2.1, toString p.2.2,
      "intergenic", gd.1, toString gd.2⟩

/-- `annotate_peaks(peaks, genes, promoter_upstream, promoter_downstream)`. -/
def annotate_peaks (peaks : List GenomicInterval) (genes : List GeneRecord)
    (pUp pDown : Int) : List AnnotationRow :=
  peaks.enum.map (fun q => annotateRow peaks genes pUp pDown q.1 q.2)

/-- `annotate_peaks` reads `peaks` and `genes` and sorts only freshly
built grouped lists, so the caller's collections are unchanged. -/
def annotate_peaks_post (peaks : List GenomicInterval) (genes : List GeneRecord) :
    List GenomicInterval × List GeneRecord :=
  (peaks, genes)

/-- Specification predicate: the integer coordinate `p` lies in some
interval of `l`. -/
def covered (p : Int) (l : List Interval) : Prop :=
  ∃ x ∈ l, x.1 ≤ p ∧ p < x.2

/-- Specification predicate: the genomic coordinate `(c, p)` lies in some
interval of `l`. -/
def coveredG (c : String) (p : Int) (l : List GenomicInterval) : Prop :=
  ∃ q ∈ l, q.1 = c ∧ q.2.1 ≤ p ∧ p < q.2.2

/-! ## Theorems -/

theorem merge_intervals_1d_eq (l : List Interval) :
    merge_intervals_1d l = merge_intervals l := rfl

/-! ### Sorting helpers -/

theorem sortByStart_pairwise (l : List Interval) :
    (sortByStart l).Pairwise (fun a b => a.1 ≤ b.1) := by
  have h := @List.sorted_mergeSort Interval (fun a b => decide (a.1 ≤ b.1))
    (by intro a b c h1 h2; simp only [decide_eq_true_eq] at h1 h2 ⊢; omega)
    (by intro a b; simp only [Bool.or_eq_true, decide_eq_true_eq]; omega) l
  exact h.imp (by intro a b hb; simpa using hb)

theorem sortByStart_perm (l : List Interval) : (sortByStart l).Perm l :=
  List.mergeSort_perm l _

theorem sortByStart_of_sorted {l : List Interval}
    (h : l.Pairwise (fun a b => a.1 ≤ b.1)) : sortByStart l = l :=
  List.mergeSort_of_sorted (by exact h.imp (fun hab => by simpa using hab))

theorem mem_sortByStart {x : Interval} {l : List Interval} :
    x ∈ sortByStart l ↔ x ∈ l := List.mem_mergeSort

/-! ### Structure of the merge fold -/

/-- The first interval emitted by `mergeLoop last rest` starts at
`last.1` and ends no earlier than `last.2`. -/
theorem mergeLoop_head (last : Interval) (rest : List Interval) :
    ∃ e tail, mergeLoop last rest = (last.1, e) :: tail ∧ last.2 ≤ e := by
  induction rest generalizing last with
  | nil => exact ⟨last.2, [], rfl, le_refl _⟩
  | cons cur rest ih =>
    rw [mergeLoop]
    by_cases h : cur.1 ≤ last.2
    · simp only [h, if_pos]
      obtain ⟨e, t, heq, hle⟩ := ih (last.1, max last.2 cur.2)
      exact ⟨e, t, heq, le_trans (le_max_left _ _) hle⟩
    · simp only [h, if_neg, not_false_iff]
      exact ⟨last.2, mergeLoop cur rest, rfl, le_refl _⟩

/-- Every interval of `mergeLoop last rest` is well-formed when `last`
and all of `rest` are. -/
theorem mergeLoop_wf {last : Interval} {rest : List Interval}
    (hl : last.1 < last.2) (hr : ∀ x ∈ rest, x.1 < x.2) :
    ∀ y ∈ mergeLoop last rest, y.1 < y.2 := by
  induction rest generalizing last with
  | nil => simpa [mergeLoop] using hl
  | cons cur rest ih =>
    rw [mergeLoop]
    by_cases h : cur.1 ≤ last.2
    · simp only [h, if_pos]
      exact ih (lt_of_lt_of_le hl (le_max_left _ _))
        (fun x hx => hr x (List.mem_cons_of_mem _ hx))
    · simp only [h, if_neg, not_false_iff]
      intro y hy
      rcases List.mem_cons.mp hy with hy | hy
      · exact hy ▸ hl
      · exact ih (hr cur (List.mem_cons_self _ _))
          (fun x hx => hr x (List.mem_cons_of_mem _ hx)) y hy

/-- Consecutive intervals of the merge fold are separated:
`a.2 < b.1` for each adjacent pair, given a start-sorted input. -/
theorem mergeLoop_chain {last : Interval} {rest : List Interval}
    (hs : (last :: rest).Pairwise (fun a b => a.1 ≤ b.1)) :
    (mergeLoop last rest).Chain' (fun a b => a.2 < b.1) := by
  induction rest generalizing last with
  | nil => simp [mergeLoop]
  | cons cur rest ih =>
    rw [List.pairwise_cons] at hs
    rw [mergeLoop]
    by_cases h : cur.1 ≤ last.2
    · simp only [h, if_pos]
      refine ih ?_
      rw [List.pairwise_cons]
      exact ⟨fun b hb => hs.1 b (List.mem_cons_of_mem _ hb),
        (List.pairwise_cons.mp hs.2).2⟩
    · simp only [h, if_neg, not_false_iff]
      obtain ⟨e, t, heq, _⟩ := mergeLoop_head cur rest
      rw [heq]
      exact List.Chain'.cons (by omega) (heq ▸ ih hs.2)

/-- A chain of separated intervals that are all well-formed is pairwise
separated. -/
theorem chain'_sep_pairwise :
    ∀ {l : List Interval}, l.Chain' (fun a b => a.2 < b.1) →
      (∀ x ∈ l, x.1 < x.2) → l.Pairwise (fun a b => a.2 < b.1) := by
  intro l
  induction l with
  | nil => intro _ _; exact List.Pairwise.nil
  | cons x t ih =>
    intro hc hwf
    rcases t with _ | ⟨y, t⟩
    · simp
    · have hxy : x.2 < y.1 := (List.chain'_cons.mp hc).1
      have hrest := ih (List.chain'_cons.mp hc).2
        (fun z hz => hwf z (List.mem_cons_of_mem _ hz))
      rw [List.pairwise_cons]
      refine ⟨?_, hrest⟩
      intro b hb
      rcases List.mem_cons.mp hb with hb | hb
      · exact hb ▸ hxy
      · have hy2 : y.1 < y.2 :=
          hwf y (List.mem_cons_of_mem _ (List.mem_cons_self _ _))
        have := (List.pairwise_cons.mp hrest).1 b hb
        omega

/-- `merge_intervals` output is pairwise separated for well-formed input. -/
theorem merge_intervals_pairwise_sep {X : List Interval}
    (hwf : ∀ x ∈ X, x.1 < x.2) :
    (merge_intervals X).Pairwise (fun a b => a.2 < b.1) := by
  unfold merge_intervals
  rcases hE : sortByStart X with _ | ⟨x, rest⟩
  · exact List.Pairwise.nil
  · have hsorted : (x :: rest).Pairwise (fun a b => a.1 ≤ b.1) := by
      rw [← hE]; exact sortByStart_pairwise X
    have hwf' : ∀ y ∈ (x :: rest), y.1 < y.2 := by
      intro y hy
      exact hwf y ((sortByStart_perm X).mem_iff.mp (hE ▸ hy))
    exact chain'_sep_pairwise (mergeLoop_chain hsorted)
      (mergeLoop_wf (hwf' x (List.mem_cons_self _ _))
        (fun z hz => hwf' z (List.mem_cons_of_mem _ hz)))

/-- `merge_intervals` output intervals are well-formed for well-formed
input. -/
theorem merge_intervals_wf {X : List Interval} (hwf : ∀ x ∈ X, x.1 < x.2) :
    ∀ y ∈ merge_intervals X, y.1 < y.2 := by
  unfold merge_intervals
  rcases hE : sortByStart X with _ | ⟨x, rest⟩
  · simp
  · have hwf' : ∀ y ∈ (x :: rest), y.1 < y.2 := by
      intro y hy
      exact hwf y ((sortByStart_perm X).mem_iff.mp (hE ▸ hy))
    exact mergeLoop_wf (hwf' x (List.mem_cons_self _ _))
      (fun z hz => hwf' z (List.mem_cons_of_mem _ hz))

/-- `merge_intervals` output is sorted by start for well-formed input. -/
theorem merge_intervals_sorted_starts {X : List Interval}
    (hwf : ∀ x ∈ X, x.1 < x.2) :
    (merge_intervals X).Pairwise (fun a b => a.1 ≤ b.1) := by
  have hsep := merge_intervals_pairwise_sep hwf
  have hw := merge_intervals_wf hwf
  refine hsep.imp_of_mem ?_
  intro a b ha _ hab
  have := hw a ha
  omega

/-- Folding an already separated list is the identity. -/
theorem mergeLoop_of_separated :
    ∀ {x : Interval} {t : List Interval},
      (x :: t).Chain' (fun a b => a.2 < b.1) → mergeLoop x t = x :: t := by
  intro x t
  induction t generalizing x with
  | nil => intro _; rfl
  | cons y t ih =>
    intro hc
    have hxy : x.2 < y.1 := (List.chain'_cons.mp hc).1
    rw [mergeLoop]
    simp only [if_neg (by omega : ¬ y.1 ≤ x.2)]
    rw [ih (List.chain'_cons.mp hc).2]

/-! ### C2 -/

/-- C2: counterexample.  `merge_intervals` sorts the caller's list in
place, so calling it on the unsorted list `[(5,6), (1,2)]` leaves the
caller's list reordered: the claim that every collection passed to an
engine operation holds the same elements in the same order afterwards is
false for `merge_1d`. -/
theorem C2_counterexample_merge_mutates :
    merge_intervals_post [((5 : Int), (6 : Int)), (1, 2)]
      ≠ [((5 : Int), (6 : Int)), (1, 2)] := by
  intro h
  have hp := sortByStart_pairwise [((5 : Int), (6 : Int)), (1, 2)]
  rw [merge_intervals_post] at h
  rw [h] at hp
  exact absurd hp (by decide)

/-- C2 amended: `find_overlaps` (both variants), `union_peaks` and
`annotate_peaks` leave every caller-passed collection unchanged;
`merge_1d` (`merge_intervals` and `merge_intervals_1d`) instead sorts the
caller's list in place, so that list afterwards holds the same elements
(a permutation) in ascending-start order, and is unchanged exactly when
it was already sorted by start. -/
theorem C2_amended_inputs_read_only (a b : List Interval)
    (ga gb : List GenomicInterval) (pbs : PeaksBySample)
    (peaks : List GenomicInterval) (genes : List GeneRecord)
    (l s : List Interval) (hs : s.Pairwise (fun x y => x.1 ≤ y.1)) :
    find_overlaps_1d_post a b = (a, b)
    ∧ find_overlaps_genomic_post ga gb = (ga, gb)
    ∧ union_peaks_post pbs = pbs
    ∧ annotate_peaks_post peaks genes = (peaks, genes)
    ∧ (merge_intervals_post l).Perm l
    ∧ merge_intervals_post l = sortByStart l
    ∧ merge_intervals_1d_post l = merge_intervals_post l
    ∧ merge_intervals_post s = s := by
  refine ⟨rfl, rfl, rfl, rfl, sortByStart_perm l, rfl, rfl, ?_⟩
  rw [merge_intervals_post]
  exact sortByStart_of_sorted hs

/-- C2 amended, witness: a concrete instantiation. -/
theorem C2_amended_witness :
    find_overlaps_1d_post [((0 : Int), (2 : Int))] [] = ([((0 : Int), (2 : Int))], [])
    ∧ find_overlaps_genomic_post [("chr1", (0 : Int), (2 : Int))] []
        = ([("chr1", (0 : Int), (2 : Int))], [])
    ∧ union_peaks_post [("s1", [("chr1", (0 : Int), (2 : Int))])]
        = [("s1", [("chr1", (0 : Int), (2 : Int))])]
    ∧ annotate_peaks_post [("chr1", (0 : Int), (2 : Int))] []
        = ([("chr1", (0 : Int), (2 : Int))], [])
    ∧ (merge_intervals_post [((3 : Int), (4 : Int)), (1, 2)]).Perm [((3 : Int), (4 : Int)), (1, 2)]
    ∧ merge_intervals_post [((3 : Int), (4 : Int)), (1, 2)]
        = sortByStart [((3 : Int), (4 : Int)), (1, 2)]
    ∧ merge_intervals_1d_post [((3 : Int), (4 : Int)), (1, 2)]
        = merge_intervals_post [((3 : Int), (4 : Int)), (1, 2)]
    ∧ merge_intervals_post [((1 : Int), (2 : Int)), (3, 4)] = [((1 : Int), (2 : Int)), (3, 4)] := by
  have h := C2_amended_inputs_read_only [((0 : Int), (2 : Int))] []
    [("chr1", (0 : Int), (2 : Int))] [] [("s1", [("chr1", (0 : Int), (2 : Int))])]
    [("chr1", (0 : Int), (2 : Int))] [] [((3 : Int), (4 : Int)), (1, 2)]
    [((1 : Int), (2 : Int)), (3, 4)] (by decide)
  exact ⟨h.1, h.2.1, h.2.2.1, h.2.2.2.1, h.2.2.2.2.1, h.2.2.2.2.2.1,
    h.2.2.2.2.2.2.1, h.2.2.2.2.2.2.2⟩

/-! ### C5 -/

/-- C5: for every sequence of well-formed intervals, the output of
`merge_1d` (both `merge_intervals` and `merge_intervals_1d`) is pairwise
disjoint and non-adjacent in ascending order: for all output positions
`i < j`, `output[i].end < output[j].start`. -/
theorem C5_merge_output_separated (X : List Interval)
    (hwf : ∀ x ∈ X, x.1 < x.2) :
    (∀ (i j : Nat) (hi : i < (merge_intervals X).length)
      (hj : j < (merge_intervals X).length), i < j →
      ((merge_intervals X).get ⟨i, hi⟩).2 < ((merge_intervals X).get ⟨j, hj⟩).1)
    ∧ (∀ (i j : Nat) (hi : i < (merge_intervals_1d X).length)
      (hj : j < (merge_intervals_1d X).length), i < j →
      ((merge_intervals_1d X).get ⟨i, hi⟩).2
        < ((merge_intervals_1d X).get ⟨j, hj⟩).1) := by
  have hp := merge_intervals_pairwise_sep hwf
  have hp1 : (merge_intervals_1d X).Pairwise (fun a b => a.2 < b.1) := by
    rw [merge_intervals_1d_eq]; exact hp
  rw [List.pairwise_iff_getElem] at hp
  rw [List.pairwise_iff_getElem] at hp1
  refine ⟨?_, ?_⟩
  · intro i j hi hj hij
    simpa using hp i j hi hj hij
  · intro i j hi hj hij
    simpa using hp1 i j hi hj hij

/-- C5, witness at `X = [(0,5), (7,10)]` (already sorted, so the merge
returns it unchanged and positions `0 < 1` are separated). -/
theorem C5_witness :
    (((merge_intervals [((0 : Int), (5 : Int)), (7, 10)]).getD 0 (0, 0)).2
      < ((merge_intervals [((0 : Int), (5 : Int)), (7, 10)]).getD 1 (0, 0)).1)
    ∧ (((merge_intervals_1d [((0 : Int), (5 : Int)), (7, 10)]).getD 0 (0, 0)).2
      < ((merge_intervals_1d [((0 : Int), (5 : Int)), (7, 10)]).getD 1 (0, 0)).1) := by
  have hm : merge_intervals [((0 : Int), (5 : Int)), (7, 10)]
      = [((0 : Int), (5 : Int)), (7, 10)] := by
    unfold merge_intervals
    rw [sortByStart_of_sorted (by decide)]
    decide
  have h := C5_merge_output_separated [((0 : Int), (5 : Int)), (7, 10)] (by decide)
  have h0 : 0 < (merge_intervals [((0 : Int), (5 : Int)), (7, 10)]).length := by
    rw [hm]; decide
  have h1 : 1 < (merge_intervals [((0 : Int), (5 : Int)), (7, 10)]).length := by
    rw [hm]; decide
  have h0' : 0 < (merge_intervals_1d [((0 : Int), (5 : Int)), (7, 10)]).length := by
    rw [merge_intervals_1d_eq, hm]; decide
  have h1' : 1 < (merge_intervals_1d [((0 : Int), (5 : Int)), (7, 10)]).length := by
    rw [merge_intervals_1d_eq, hm]; decide
  constructor
  · have hgot := h.1 0 1 h0 h1 (by omega)
    rw [List.getD_eq_getElem _ _ h0, List.getD_eq_getElem _ _ h1]
    simpa using hgot
  · have hgot := h.2 0 1 h0' h1' (by omega)
    rw [List.getD_eq_getElem _ _ h0', List.getD_eq_getElem _ _ h1']
    simpa using hgot

/-! ### C6 -/

/-- C6: `merge_1d` is idempotent on well-formed input:
`merge_intervals (merge_intervals X) = merge_intervals X`. -/
theorem C6_merge_idempotent (X : List Interval)
    (hwf : ∀ x ∈ X, x.1 < x.2) :
    merge_intervals (merge_intervals X) = merge_intervals X := by
  have hsorted := merge_intervals_sorted_starts hwf
  have hsep := merge_intervals_pairwise_sep hwf
  conv_lhs => rw [merge_intervals]
  rw [sortByStart_of_sorted hsorted]
  rcases hE : merge_intervals X with _ | ⟨x, rest⟩
  · rfl
  · exact mergeLoop_of_separated (hE ▸ hsep.chain')

/-- C6, witness at `X = [(0,5), (4, 10), (12, 13)]`. -/
theorem C6_witness :
    merge_intervals (merge_intervals [((0 : Int), (5 : Int)), (4, 10), (12, 13)])
      = merge_intervals [((0 : Int), (5 : Int)), (4, 10), (12, 13)] :=
  C6_merge_idempotent [((0 : Int), (5 : Int)), (4, 10), (12, 13)] (by decide)

/-- C1, failing input.  `intervals_a = [(0,10), (0,10)]` and
`intervals_b = [(0,5)]` are both sorted ascending by start, and both
elements of `intervals_a` strictly overlap `intervals_b[0]`; yet the
sweep emits only `(0, 0)`: after testing `(0, 0)` it advances `j` past
the only interval of `b`, so the overlapping pair `(1, 0)` is never
tested.  The chromosome-scoped variant misses the same pair.  This
contradicts the function's stated contract of finding all overlaps. -/
theorem C1_sweep_misses_overlapping_pair :
    find_overlaps_1d [((0 : Int), (10 : Int)), (0, 10)] [((0 : Int), (5 : Int))]
        = [(0, 0)]
    ∧ intervals_overlap ((0 : Int), (10 : Int)) ((0 : Int), (5 : Int)) = true
    ∧ ((1, 0) : Nat × Nat) ∉
        find_overlaps_1d [((0 : Int), (10 : Int)), (0, 10)] [((0 : Int), (5 : Int))]
    ∧ find_overlaps_genomic [("chr1", (0 : Int), (10 : Int)), ("chr1", 0, 10)]
        [("chr1", (0 : Int), (5 : Int))] = [(0, 0)] := by
  have ha : sortByStart [((0 : Int), (10 : Int)), (0, 10)]
      = [((0 : Int), (10 : Int)), (0, 10)] :=
    List.mergeSort_of_sorted (by decide)
  have hb : sortByStart [((0 : Int), (5 : Int))] = [((0 : Int), (5 : Int))] :=
    List.mergeSort_of_sorted (by decide)
  refine ⟨?_, by decide, ?_, ?_⟩
  · rw [find_overlaps_1d, ha, hb]
    rw [overlapLoop, overlapLoop, overlapLoop]
    decide
  · rw [find_overlaps_1d, ha, hb]
    rw [overlapLoop, overlapLoop, overlapLoop]
    decide
  · rw [find_overlaps_genomic]
    have hc : (((chromsOf [("chr1", (0 : Int), (10 : Int)), ("chr1", 0, 10)]).filter
        (fun c => decide (c ∈ chromsOf [("chr1", (0 : Int), (5 : Int))]))).mergeSort
        (fun a b => decide (a ≤ b))) = ["chr1"] := by
      have : ((chromsOf [("chr1", (0 : Int), (10 : Int)), ("chr1", 0, 10)]).filter
          (fun c => decide (c ∈ chromsOf [("chr1", (0 : Int), (5 : Int))]))) = ["chr1"] := by
        decide
      rw [this]
      exact List.mergeSort_of_sorted (by decide)
    rw [hc]
    have hga : groupWithIdx [("chr1", (0 : Int), (10 : Int)), ("chr1", 0, 10)] "chr1"
        = [((0 : Int), (10 : Int), 0), (0, 10, 1)] := by
      rw [groupWithIdx]
      have : ((([("chr1", (0 : Int), (10 : Int)), ("chr1", 0, 10)]).enum.filter
          (fun p => decide (p.2.1 = "chr1"))).map
          (fun p => (p.2.2.1, p.2.2.2, p.1))) = [((0 : Int), (10 : Int), 0), (0, 10, 1)] := by
        decide
      rw [this]
      exact List.mergeSort_of_sorted (by decide)
    have hgb : groupWithIdx [("chr1", (0 : Int), (5 : Int))] "chr1"
        = [((0 : Int), (5 : Int), 0)] := by
      rw [groupWithIdx]
      have : ((([("chr1", (0 : Int), (5 : Int))]).enum.filter
          (fun p => decide (p.2.1 = "chr1"))).map
          (fun p => (p.2.2.1, p.2.2.2, p.1))) = [((0 : Int), (5 : Int), 0)] := by
        decide
      rw [this]
      exact List.mergeSort_of_sorted (by decide)
    rw [List.flatMap_cons, List.flatMap_nil, hga, hgb]
    rw [overlapLoopG, overlapLoopG]
    decide

/-! ### Coverage and containment properties of the merge fold -/

theorem covered_perm {p : Int} {l1 l2 : List Interval} (h : l1.Perm l2) :
    covered p l1 ↔ covered p l2 := by
  unfold covered
  constructor
  · rintro ⟨x, hx, hc⟩; exact ⟨x, h.mem_iff.mp hx, hc⟩
  · rintro ⟨x, hx, hc⟩; exact ⟨x, h.mem_iff.mpr hx, hc⟩

/-- The merge fold covers exactly the points of its input. -/
theorem mergeLoop_covered {p : Int} :
    ∀ {last : Interval} {rest : List Interval},
      (last :: rest).Pairwise (fun a b => a.1 ≤ b.1) →
      (covered p (mergeLoop last rest) ↔ covered p (last :: rest)) := by
  intro last rest
  induction rest generalizing last with
  | nil => intro _; rfl
  | cons cur rest ih =>
    intro hs
    rw [List.pairwise_cons] at hs
    rw [mergeLoop]
    by_cases h : cur.1 ≤ last.2
    · simp only [h, if_pos]
      have hs' : ((last.1, max last.2 cur.2) :: rest).Pairwise
          (fun a b => a.1 ≤ b.1) := by
        rw [List.pairwise_cons]
        exact ⟨fun b hb => hs.1 b (List.mem_cons_of_mem _ hb),
          (List.pairwise_cons.mp hs.2).2⟩
      rw [ih hs']
      unfold covered
      constructor
      · rintro ⟨x, hx, h1, h2⟩
        rcases List.mem_cons.mp hx with hx | hx
        · subst hx
          simp only at h1 h2
          by_cases hp : p < last.2
          · exact ⟨last, List.mem_cons_self _ _, h1, hp⟩
          · refine ⟨cur, List.mem_cons_of_mem _ (List.mem_cons_self _ _), by omega, ?_⟩
            rcases max_cases last.2 cur.2 with ⟨hm, _⟩ | ⟨hm, _⟩ <;> omega
        · exact ⟨x, List.mem_cons_of_mem _ (List.mem_cons_of_mem _ hx), h1, h2⟩
      · rintro ⟨x, hx, h1, h2⟩
        rcases List.mem_cons.mp hx with hx | hx
        · exact ⟨(last.1, max last.2 cur.2), List.mem_cons_self _ _, hx ▸ h1,
            lt_of_lt_of_le (hx ▸ h2) (le_max_left _ _)⟩
        rcases List.mem_cons.mp hx with hx | hx
        · have hlc : last.1 ≤ cur.1 := hs.1 cur (List.mem_cons_self _ _)
          have h1' : cur.1 ≤ p := hx ▸ h1
          have h2' : p < cur.2 := hx ▸ h2
          exact ⟨(last.1, max last.2 cur.2), List.mem_cons_self _ _, by omega,
            lt_of_lt_of_le h2' (le_max_right _ _)⟩
        · exact ⟨x, List.mem_cons_of_mem _ hx, h1, h2⟩
    · simp only [h, if_neg, not_false_iff]
      unfold covered
      constructor
      · rintro ⟨x, hx, h1, h2⟩
        rcases List.mem_cons.mp hx with hx | hx
        · exact ⟨last, List.mem_cons_self _ _, hx ▸ h1, hx ▸ h2⟩
        · obtain ⟨y, hy, hc⟩ := (ih hs.2).mp ⟨x, hx, h1, h2⟩
          exact ⟨y, List.mem_cons_of_mem _ hy, hc⟩
      · rintro ⟨x, hx, h1, h2⟩
        rcases List.mem_cons.mp hx with hx | hx
        · exact ⟨last, List.mem_cons_self _ _, hx ▸ h1, hx ▸ h2⟩
        · obtain ⟨y, hy, hc⟩ := (ih hs.2).mpr ⟨x, hx, h1, h2⟩
          exact ⟨y, List.mem_cons_of_mem _ hy, hc⟩

/-- Every input interval of the merge fold is contained in some output
interval. -/
theorem mergeLoop_contains {last : Interval} {rest : List Interval}
    (hs : (last :: rest).Pairwise (fun a b => a.1 ≤ b.1)) :
    ∀ y ∈ last :: rest, ∃ u ∈ mergeLoop last rest, u.1 ≤ y.1 ∧ y.2 ≤ u.2 := by
  induction rest generalizing last with
  | nil =>
    intro y hy
    rcases List.mem_cons.mp hy with hy | hy
    · exact ⟨last, by simp [mergeLoop], hy ▸ le_refl _, hy ▸ le_refl _⟩
    · cases hy
  | cons cur rest ih =>
    rw [List.pairwise_cons] at hs
    intro y hy
    rw [mergeLoop]
    by_cases h : cur.1 ≤ last.2
    · simp only [h, if_pos]
      have hs' : ((last.1, max last.2 cur.2) :: rest).Pairwise
          (fun a b => a.1 ≤ b.1) := by
        rw [List.pairwise_cons]
        exact ⟨fun b hb => hs.1 b (List.mem_cons_of_mem _ hb),
          (List.pairwise_cons.mp hs.2).2⟩
      obtain ⟨u, hu, hu1, hu2⟩ :=
        ih hs' (last.1, max last.2 cur.2) (List.mem_cons_self _ _)
      simp only at hu1 hu2
      rcases List.mem_cons.mp hy with hy | hy
      · subst hy
        exact ⟨u, hu, hu1, le_trans (le_max_left _ _) hu2⟩
      rcases List.mem_cons.mp hy with hy | hy
      · subst hy
        have hlc : last.1 ≤ y.1 := hs.1 y (List.mem_cons_self _ _)
        exact ⟨u, hu, le_trans hu1 hlc, le_trans (le_max_right _ _) hu2⟩
      · obtain ⟨u', hu', hc⟩ := ih hs' y (List.mem_cons_of_mem _ hy)
        exact ⟨u', hu', hc⟩
    · simp only [h, if_neg, not_false_iff]
      rcases List.mem_cons.mp hy with hy | hy
      · exact ⟨last, List.mem_cons_self _ _, hy ▸ le_refl _, hy ▸ le_refl _⟩
      · obtain ⟨u, hu, hc⟩ := ih hs.2 y hy
        exact ⟨u, List.mem_cons_of_mem _ hu, hc⟩

/-- `merge_intervals` covers exactly the points of its input. -/
theorem merge_intervals_covered (p : Int) (X : List Interval) :
    covered p (merge_intervals X) ↔ covered p X := by
  unfold merge_intervals
  rcases hE : sortByStart X with _ | ⟨x, rest⟩
  · have hX : X = [] := by
      have := sortByStart_perm X
      rw [hE] at this
      exact this.symm.eq_nil
    subst hX
    rfl
  · rw [mergeLoop_covered (hE ▸ sortByStart_pairwise X)]
    exact covered_perm (hE ▸ sortByStart_perm X)

/-- Every input interval is contained in some `merge_intervals` output
interval. -/
theorem merge_intervals_contains {X : List Interval} :
    ∀ y ∈ X, ∃ u ∈ merge_intervals X, u.1 ≤ y.1 ∧ y.2 ≤ u.2 := by
  intro y hy
  unfold merge_intervals
  rcases hE : sortByStart X with _ | ⟨x, rest⟩
  · have hX : X = [] := by
      have := sortByStart_perm X
      rw [hE] at this
      exact this.symm.eq_nil
    subst hX
    cases hy
  · refine mergeLoop_contains (hE ▸ sortByStart_pairwise X) y ?_
    rw [← hE]
    exact mem_sortByStart.mpr hy

/-- Two touching or overlapping input intervals end up inside one common
output interval of `merge_intervals` (well-formed input). -/
theorem merge_intervals_joins {X : List Interval} (hwf : ∀ x ∈ X, x.1 < x.2)
    {x y : Interval} (hx : x ∈ X) (hy : y ∈ X)
    (h1 : y.1 ≤ x.2) (h2 : x.1 ≤ y.2) :
    ∃ u ∈ merge_intervals X, u.1 ≤ x.1 ∧ x.2 ≤ u.2 ∧ u.1 ≤ y.1 ∧ y.2 ≤ u.2 := by
  obtain ⟨u1, hu1, h11, h12⟩ := merge_intervals_contains x hx
  obtain ⟨u2, hu2, h21, h22⟩ := merge_intervals_contains y hy
  have hsep := merge_intervals_pairwise_sep hwf
  rw [List.pairwise_iff_getElem] at hsep
  obtain ⟨i, hi, hEi⟩ := List.getElem_of_mem hu1
  obtain ⟨j, hj, hEj⟩ := List.getElem_of_mem hu2
  rcases lt_trichotomy i j with hij | hij | hij
  · exfalso
    have := hsep i j hi hj hij
    rw [hEi, hEj] at this
    omega
  · subst hij
    rw [hEi] at hEj
    subst hEj
    exact ⟨u1, hu1, h11, h12, h21, h22⟩
  · exfalso
    have := hsep j i hj hi hij
    rw [hEi, hEj] at this
    omega

/-! ### Structure of the union peak list -/

theorem merge_intervals_nil : merge_intervals [] = [] := by
  unfold merge_intervals
  rw [sortByStart_of_sorted List.Pairwise.nil]

theorem sortedChroms_nodup (pbs : PeaksBySample) : (sortedChroms pbs).Nodup :=
  (List.mergeSort_perm _ _).symm.nodup (List.nodup_dedup _)

theorem sortedChroms_sorted (pbs : PeaksBySample) :
    (sortedChroms pbs).Pairwise (fun a b : String => a ≤ b) := by
  have h := @List.sorted_mergeSort String (fun a b => decide (a ≤ b))
    (by intro a b c h1 h2; simp only [decide_eq_true_eq] at h1 h2 ⊢; exact le_trans h1 h2)
    (by intro a b; simp only [Bool.or_eq_true, decide_eq_true_eq]; exact le_total a b)
    (chromsOf (allPeaks pbs))
  exact h.imp (by intro a b hb; simpa using hb)

theorem mem_sortedChroms {pbs : PeaksBySample} {c : String} :
    c ∈ sortedChroms pbs ↔ ∃ q ∈ allPeaks pbs, q.1 = c := by
  unfold sortedChroms chromsOf
  rw [List.mem_mergeSort, List.mem_dedup, List.mem_map]

theorem chromToAll_nil_of_not_mem {pbs : PeaksBySample} {c : String}
    (h : ¬ ∃ q ∈ allPeaks pbs, q.1 = c) : chromToAll pbs c = [] := by
  rw [chromToAll, List.filterMap_eq_nil_iff]
  intro q hq
  rw [ite_eq_right_iff]
  intro hc
  exact (h ⟨q, hq, hc⟩).elim

theorem chromToAll_wf {pbs : PeaksBySample}
    (hwf : ∀ q ∈ allPeaks pbs, q.2.1 < q.2.2) (c : String) :
    ∀ z ∈ chromToAll pbs c, z.1 < z.2 := by
  intro z hz
  rw [chromToAll, List.mem_filterMap] at hz
  obtain ⟨q, hq, hqz⟩ := hz
  by_cases hc : q.1 = c
  · rw [if_pos hc, Option.some_inj] at hqz
    subst hqz
    exact hwf q hq
  · rw [if_neg hc] at hqz
    cases hqz

theorem blocks_filter_nil (cs : List String) (f : String → List Interval)
    (c : String) (hc : c ∉ cs) :
    (cs.flatMap (fun e => (f e).map (fun q => (e, q.1, q.2)))).filterMap
      (fun q => if q.1 = c then some (q.2.1, q.2.2) else none) = [] := by
  rw [List.filterMap_eq_nil_iff]
  intro q hq
  rw [List.mem_flatMap] at hq
  obtain ⟨e, he, hq⟩ := hq
  rw [List.mem_map] at hq
  obtain ⟨x, _, hx⟩ := hq
  have hq1 : q.1 = e := by rw [← hx]
  rw [ite_eq_right_iff]
  intro hqc
  have hec : e = c := by rw [← hq1, hqc]
  exact absurd (hec ▸ he) hc

theorem blocks_filter_mem (cs : List String) (f : String → List Interval)
    (c : String) (hnd : cs.Nodup) (hc : c ∈ cs) :
    (cs.flatMap (fun e => (f e).map (fun q => (e, q.1, q.2)))).filterMap
      (fun q => if q.1 = c then some (q.2.1, q.2.2) else none) = f c := by
  induction cs with
  | nil => cases hc
  | cons e cs ih =>
    rw [List.flatMap_cons, List.filterMap_append]
    rcases List.mem_cons.mp hc with hc | hc
    · subst hc
      rw [blocks_filter_nil cs f c (List.nodup_cons.mp hnd).1, List.append_nil]
      rw [List.filterMap_map]
      have hfn : ((fun q : GenomicInterval =>
          if q.1 = c then some (q.2.1, q.2.2) else none) ∘
          (fun q : Interval => ((c, q.1, q.2) : GenomicInterval))) = fun q => some q := by
        funext q
        simp
      rw [hfn]
      simp
    · have hne : e ≠ c := by
        rintro rfl
        exact (List.nodup_cons.mp hnd).1 hc
      have hblock : ((f e).map (fun q => ((e, q.1, q.2) : GenomicInterval))).filterMap
          (fun q => if q.1 = c then some (q.2.1, q.2.2) else none) = [] := by
        rw [List.filterMap_eq_nil_iff]
        intro q hq
        rw [List.mem_map] at hq
        obtain ⟨x, _, hx⟩ := hq
        have hq1 : q.1 = e := by rw [← hx]
        rw [ite_eq_right_iff]
        intro hqc
        exact absurd (hq1 ▸ hqc) hne
      rw [hblock, List.nil_append]
      exact ih (List.nodup_cons.mp hnd).2 hc

/-- Restricting the union list to one chromosome recovers exactly the
merge of that chromosome's pooled intervals. -/
theorem union_filter_chrom (pbs : PeaksBySample) (c : String) :
    (union_peaks_list pbs).filterMap
      (fun q => if q.1 = c then some (q.2.1, q.2.2) else none)
      = merge_intervals_1d (chromToAll pbs c) := by
  unfold union_peaks_list
  by_cases hc : c ∈ sortedChroms pbs
  · exact blocks_filter_mem _ _ _ (sortedChroms_nodup pbs) hc
  · rw [blocks_filter_nil _ _ _ hc]
    rw [merge_intervals_1d_eq,
      chromToAll_nil_of_not_mem (fun hex => hc (mem_sortedChroms.mpr hex)),
      merge_intervals_nil]

theorem coveredG_filterMap {c : String} {p : Int} {l : List GenomicInterval} :
    covered p (l.filterMap (fun q => if q.1 = c then some (q.2.1, q.2.2) else none))
      ↔ coveredG c p l := by
  unfold covered coveredG
  constructor
  · rintro ⟨x, hx, h1, h2⟩
    rw [List.mem_filterMap] at hx
    obtain ⟨q, hq, hqx⟩ := hx
    by_cases hqc : q.1 = c
    · rw [if_pos hqc, Option.some_inj] at hqx
      subst hqx
      exact ⟨q, hq, hqc, h1, h2⟩
    · rw [if_neg hqc] at hqx
      cases hqx
  · rintro ⟨q, hq, hqc, h1, h2⟩
    exact ⟨(q.2.1, q.2.2),
      List.mem_filterMap.mpr ⟨q, hq, by rw [if_pos hqc]⟩, h1, h2⟩

/-- Union peaks of chromosome `c`, as plain intervals, are members of the
merged pool of `c`. -/
theorem union_mem_merge {pbs : PeaksBySample} {u : GenomicInterval}
    (hu : u ∈ union_peaks_list pbs) :
    (u.2.1, u.2.2) ∈ merge_intervals_1d (chromToAll pbs u.1) := by
  rw [← union_filter_chrom pbs u.1]
  exact List.mem_filterMap.mpr ⟨u, hu, by rw [if_pos rfl]⟩

/-! ### C4 -/

/-- C4: the union list is, per chromosome, exactly `merge_1d` of the
pooled intervals of all samples on that chromosome; it covers exactly the
union of the input coordinates; any two same-chromosome inputs that
overlap or merely touch are contained in one common union peak; and the
chromosome names appear in ascending lexicographic order. -/
theorem C4_union_peaks_structure (pbs : PeaksBySample)
    (hwf : ∀ q ∈ allPeaks pbs, q.2.1 < q.2.2) :
    (∀ c : String,
      (union_peaks_list pbs).filterMap
        (fun q => if q.1 = c then some (q.2.1, q.2.2) else none)
        = merge_intervals_1d (chromToAll pbs c))
    ∧ (∀ (c : String) (p : Int),
        coveredG c p (union_peaks_list pbs) ↔ coveredG c p (allPeaks pbs))
    ∧ (∀ x y : GenomicInterval, x ∈ allPeaks pbs → y ∈ allPeaks pbs →
        x.1 = y.1 → y.2.1 ≤ x.2.2 → x.2.1 ≤ y.2.2 →
        ∃ u ∈ union_peaks_list pbs, u.1 = x.1 ∧ u.2.1 ≤ x.2.1 ∧ x.2.2 ≤ u.2.2
          ∧ u.2.1 ≤ y.2.1 ∧ y.2.2 ≤ u.2.2)
    ∧ ((union_peaks_list pbs).map (fun q => q.1)).Pairwise
        (fun a b : String => a ≤ b) := by
  refine ⟨union_filter_chrom pbs, ?_, ?_, ?_⟩
  · intro c p
    calc coveredG c p (union_peaks_list pbs)
        ↔ covered p ((union_peaks_list pbs).filterMap
            (fun q => if q.1 = c then some (q.2.1, q.2.2) else none)) :=
          coveredG_filterMap.symm
      _ ↔ covered p (merge_intervals_1d (chromToAll pbs c)) := by
          rw [union_filter_chrom]
      _ ↔ covered p (chromToAll pbs c) := by
          rw [merge_intervals_1d_eq]
          exact merge_intervals_covered p _
      _ ↔ coveredG c p (allPeaks pbs) := by
          unfold chromToAll
          exact coveredG_filterMap
  · intro x y hx hy hchrom h1 h2
    have hx' : (x.2.1, x.2.2) ∈ chromToAll pbs x.1 :=
      List.mem_filterMap.mpr ⟨x, hx, by rw [if_pos rfl]⟩
    have hy' : (y.2.1, y.2.2) ∈ chromToAll pbs x.1 :=
      List.mem_filterMap.mpr ⟨y, hy, by rw [if_pos hchrom.symm]⟩
    obtain ⟨u', hu', hA, hB, hC, hD⟩ :=
      merge_intervals_joins (chromToAll_wf hwf x.1) hx' hy' h1 h2
    have hcmem : x.1 ∈ sortedChroms pbs := mem_sortedChroms.mpr ⟨x, hx, rfl⟩
    refine ⟨(x.1, u'.1, u'.2), ?_, rfl, hA, hB, hC, hD⟩
    unfold union_peaks_list
    rw [List.mem_flatMap]
    refine ⟨x.1, hcmem, ?_⟩
    rw [List.mem_map]
    refine ⟨u', ?_, rfl⟩
    rw [merge_intervals_1d_eq]
    exact hu'
  · unfold union_peaks_list
    rw [List.flatMap_def, List.map_flatten, List.pairwise_flatten]
    constructor
    · intro l hl
      rw [List.map_map, List.mem_map] at hl
      obtain ⟨c, _, hceq⟩ := hl
      subst hceq
      apply List.pairwise_of_forall_mem_list
      intro a ha b hb
      rw [Function.comp_apply, List.map_map, List.mem_map] at ha hb
      obtain ⟨qa, _, hqa⟩ := ha
      obtain ⟨qb, _, hqb⟩ := hb
      have ha' : a = c := hqa.symm
      have hb' : b = c := hqb.symm
      rw [ha', hb']
    · rw [List.map_map, List.pairwise_map]
      refine (sortedChroms_sorted pbs).imp ?_
      intro c1 c2 hle a ha b hb
      rw [Function.comp_apply, List.map_map, List.mem_map] at ha hb
      obtain ⟨qa, _, hqa⟩ := ha
      obtain ⟨qb, _, hqb⟩ := hb
      rw [← hqa, ← hqb]
      exact hle

/-- C4, witness: two samples on `chr1` with touching peaks `[0,6)` and
`[5,10)`. -/
theorem C4_witness :
    ((union_peaks_list [("s1", [("chr1", (0 : Int), (6 : Int))]),
        ("s2", [("chr1", (5 : Int), (10 : Int))])]).filterMap
        (fun q => if q.1 = "chr1" then some (q.2.1, q.2.2) else none)
      = merge_intervals_1d (chromToAll [("s1", [("chr1", (0 : Int), (6 : Int))]),
        ("s2", [("chr1", (5 : Int), (10 : Int))])] "chr1"))
    ∧ (coveredG "chr1" 5 (union_peaks_list [("s1", [("chr1", (0 : Int), (6 : Int))]),
        ("s2", [("chr1", (5 : Int), (10 : Int))])])
      ↔ coveredG "chr1" 5 (allPeaks [("s1", [("chr1", (0 : Int), (6 : Int))]),
        ("s2", [("chr1", (5 : Int), (10 : Int))])]))
    ∧ (∃ u ∈ union_peaks_list [("s1", [("chr1", (0 : Int), (6 : Int))]),
        ("s2", [("chr1", (5 : Int), (10 : Int))])],
        u.1 = "chr1" ∧ u.2.1 ≤ 0 ∧ 6 ≤ u.2.2 ∧ u.2.1 ≤ 5 ∧ 10 ≤ u.2.2)
    ∧ ((union_peaks_list [("s1", [("chr1", (0 : Int), (6 : Int))]),
        ("s2", [("chr1", (5 : Int), (10 : Int))])]).map (fun q => q.1)).Pairwise
        (fun a b : String => a ≤ b) := by
  have h := C4_union_peaks_structure [("s1", [("chr1", (0 : Int), (6 : Int))]),
    ("s2", [("chr1", (5 : Int), (10 : Int))])] (by decide)
  refine ⟨h.1 "chr1", h.2.1 "chr1" 5, ?_, h.2.2.2⟩
  exact h.2.2.1 ("chr1", (0 : Int), (6 : Int)) ("chr1", (5 : Int), (10 : Int))
    (by decide) (by decide) (by decide) (by decide) (by decide)

/-! ### The membership sweep of `union_peaks` -/

/-- Every hit recorded by the membership sweep is one of the union peaks. -/
theorem sweepHits_subset :
    ∀ (ints unions : List Interval) (u : Interval),
      u ∈ sweepHits ints unions → u ∈ unions := by
  intro ints
  induction ints with
  | nil =>
    intro unions u hu
    rw [sweepHits] at hu
    cases hu
  | cons s ri ihI =>
    intro unions
    induction unions with
    | nil =>
      intro u hu
      rw [sweepHits] at hu
      cases hu
    | cons u0 ru ihU =>
      intro u hu
      rw [sweepHits] at hu
      rcases List.mem_append.mp hu with hm | hm
      · by_cases ho : intervals_overlap s u0 = true
        · rw [if_pos ho] at hm
          exact (List.mem_singleton.mp hm) ▸ List.mem_cons_self _ _
        · rw [if_neg ho] at hm
          cases hm
      · by_cases h : s.2 ≤ u0.2
        · rw [if_pos h] at hm
          exact ihI (u0 :: ru) u hm
        · rw [if_neg h] at hm
          exact List.mem_cons_of_mem _ (ihU u hm)

/-- Exactness of the membership sweep: because the union peaks are
pairwise separated and well-formed and both lists are sorted by start, a
union peak is recorded iff some sample interval strictly overlaps it. -/
theorem sweepHits_mem_iff :
    ∀ (ints unions : List Interval),
      ints.Pairwise (fun a b => a.1 ≤ b.1) →
      unions.Pairwise (fun a b => a.2 < b.1) →
      (∀ v ∈ unions, v.1 < v.2) →
      ∀ u ∈ unions,
        (u ∈ sweepHits ints unions ↔ ∃ s ∈ ints, intervals_overlap s u = true) := by
  intro ints
  induction ints with
  | nil =>
    intro unions _ _ _ u _
    rw [sweepHits]
    simp
  | cons s ri ihI =>
    intro unions
    induction unions with
    | nil =>
      intro _ _ _ u hu
      cases hu
    | cons u0 ru ihU =>
      intro hsi hsep hwfu u hu
      have hsi' : ri.Pairwise (fun a b => a.1 ≤ b.1) := (List.pairwise_cons.mp hsi).2
      have hsep' : ru.Pairwise (fun a b => a.2 < b.1) := (List.pairwise_cons.mp hsep).2
      have hwfu' : ∀ v ∈ ru, v.1 < v.2 :=
        fun v hv => hwfu v (List.mem_cons_of_mem _ hv)
      rw [sweepHits]
      by_cases h : s.2 ≤ u0.2
      · rw [if_pos h]
        constructor
        · intro hmem
          rcases List.mem_append.mp hmem with hm | hm
          · by_cases ho : intervals_overlap s u0 = true
            · rw [if_pos ho] at hm
              exact ⟨s, List.mem_cons_self _ _, (List.mem_singleton.mp hm) ▸ ho⟩
            · rw [if_neg ho] at hm
              cases hm
          · obtain ⟨s', hs', ho⟩ := (ihI (u0 :: ru) hsi' hsep hwfu u hu).mp hm
            exact ⟨s', List.mem_cons_of_mem _ hs', ho⟩
        · rintro ⟨s', hs', ho⟩
          rcases List.mem_cons.mp hs' with rfl | hs'
          · rcases List.mem_cons.mp hu with rfl | hu'
            · apply List.mem_append.mpr
              left
              rw [if_pos ho]
              exact List.mem_singleton.mpr rfl
            · exfalso
              have h01 : u0.2 < u.1 := (List.pairwise_cons.mp hsep).1 u hu'
              rw [intervals_overlap, Bool.and_eq_true, decide_eq_true_eq,
                decide_eq_true_eq] at ho
              omega
          · apply List.mem_append.mpr
            right
            exact (ihI (u0 :: ru) hsi' hsep hwfu u hu).mpr ⟨s', hs', ho⟩
      · rw [if_neg h]
        rcases List.mem_cons.mp hu with rfl | hu'
        · constructor
          · intro hmem
            rcases List.mem_append.mp hmem with hm | hm
            · by_cases ho : intervals_overlap s u = true
              · rw [if_pos ho] at hm
                exact ⟨s, List.mem_cons_self _ _, (List.mem_singleton.mp hm) ▸ ho⟩
              · rw [if_neg ho] at hm
                cases hm
            · exfalso
              have hmu : u ∈ ru := sweepHits_subset _ _ _ hm
              have h01 : u.2 < u.1 := (List.pairwise_cons.mp hsep).1 u hmu
              have := hwfu u (List.mem_cons_self _ _)
              omega
          · rintro ⟨s', hs', ho⟩
            apply List.mem_append.mpr
            left
            have hov : intervals_overlap s u = true := by
              rcases List.mem_cons.mp hs' with rfl | hs'
              · exact ho
              · have hss : s.1 ≤ s'.1 := (List.pairwise_cons.mp hsi).1 s' hs'
                have hwf0 : u.1 < u.2 := hwfu u (List.mem_cons_self _ _)
                rw [intervals_overlap, Bool.and_eq_true, decide_eq_true_eq,
                  decide_eq_true_eq] at ho ⊢
                omega
            rw [if_pos hov]
            exact List.mem_singleton.mpr rfl
        · have hne : u ≠ u0 := by
            intro he
            have h01 : u0.2 < u.1 := (List.pairwise_cons.mp hsep).1 u hu'
            have := hwfu u0 (List.mem_cons_self _ _)
            rw [he] at h01
            omega
          constructor
          · intro hmem
            rcases List.mem_append.mp hmem with hm | hm
            · exfalso
              by_cases ho : intervals_overlap s u0 = true
              · rw [if_pos ho] at hm
                exact hne (List.mem_singleton.mp hm)
              · rw [if_neg ho] at hm
                cases hm
            · exact (ihU hsi hsep' hwfu' u hu').mp hm
          · intro hex
            apply List.mem_append.mpr
            right
            exact (ihU hsi hsep' hwfu' u hu').mpr hex

/-! ### `sorted(set(...))` helpers -/

theorem sortedSetStr_nodup (xs : List String) : (sortedSetStr xs).Nodup :=
  (List.mergeSort_perm _ _).symm.nodup (List.nodup_dedup _)

theorem sortedSetStr_sorted (xs : List String) :
    (sortedSetStr xs).Pairwise (fun a b : String => a ≤ b) := by
  have h := @List.sorted_mergeSort String (fun a b => decide (a ≤ b))
    (by intro a b c h1 h2; simp only [decide_eq_true_eq] at h1 h2 ⊢; exact le_trans h1 h2)
    (by intro a b; simp only [Bool.or_eq_true, decide_eq_true_eq]; exact le_total a b)
    xs.dedup
  exact h.imp (by intro a b hb; simpa using hb)

theorem mem_sortedSetStr {x : String} {xs : List String} :
    x ∈ sortedSetStr xs ↔ x ∈ xs := by
  unfold sortedSetStr
  rw [List.mem_mergeSort, List.mem_dedup]

/-- In an association list with distinct keys, two entries with the same
key are the same entry. -/
theorem assoc_eq_of_keys_nodup {l : List (String × List GenomicInterval)}
    (hnd : (l.map (fun p => p.1)).Nodup) {a b : String × List GenomicInterval}
    (ha : a ∈ l) (hb : b ∈ l) (hab : a.1 = b.1) : a = b := by
  unfold List.Nodup at hnd
  rw [List.pairwise_map] at hnd
  by_contra hne
  exact hnd.forall (fun x y hxy => fun he => hxy he.symm) ha hb hne hab

theorem unionByChrom_eq {pbs : PeaksBySample}
    (hwf : ∀ q ∈ allPeaks pbs, q.2.1 < q.2.2) (c : String) :
    unionByChrom pbs c = merge_intervals_1d (chromToAll pbs c) := by
  unfold unionByChrom
  rw [union_filter_chrom]
  rw [merge_intervals_1d_eq]
  exact sortByStart_of_sorted (merge_intervals_sorted_starts (chromToAll_wf hwf c))

/-! ### C3 -/

/-- C3: with membership requested, a sample appears in a union peak's
membership list iff at least one of that sample's original intervals
strictly overlaps that union peak, and each membership list is
duplicate-free and sorted ascending lexicographically. -/
theorem C3_membership_exact (pbs : PeaksBySample)
    (hwf : ∀ q ∈ allPeaks pbs, q.2.1 < q.2.2)
    (hkeys : (pbs.map (fun p => p.1)).Nodup)
    (u : GenomicInterval) (hu : u ∈ union_peaks_list pbs)
    (sample : String) (ints : List GenomicInterval)
    (hsm : (sample, ints) ∈ pbs) :
    (sample ∈ union_peaks_membership pbs u
      ↔ ∃ q ∈ ints, q.1 = u.1
          ∧ intervals_overlap (q.2.1, q.2.2) (u.2.1, u.2.2) = true)
    ∧ (union_peaks_membership pbs u).Nodup
    ∧ (union_peaks_membership pbs u).Pairwise (fun a b : String => a ≤ b) := by
  have hwfPool := chromToAll_wf hwf u.1
  have hsepU : (unionByChrom pbs u.1).Pairwise (fun a b => a.2 < b.1) := by
    rw [unionByChrom_eq hwf, merge_intervals_1d_eq]
    exact merge_intervals_pairwise_sep hwfPool
  have hwfU : ∀ v ∈ unionByChrom pbs u.1, v.1 < v.2 := by
    rw [unionByChrom_eq hwf, merge_intervals_1d_eq]
    exact merge_intervals_wf hwfPool
  have humem : (u.2.1, u.2.2) ∈ unionByChrom pbs u.1 := by
    rw [unionByChrom_eq hwf]
    exact union_mem_merge hu
  refine ⟨?_, sortedSetStr_nodup _, sortedSetStr_sorted _⟩
  rw [union_peaks_membership, mem_sortedSetStr]
  constructor
  · intro hmem
    rw [List.mem_filterMap] at hmem
    obtain ⟨p, hp, hcp⟩ := hmem
    by_cases hhit : (u.2.1, u.2.2) ∈
        sweepHits (sortByStart (sampleIntervalsOn p.2 u.1)) (unionByChrom pbs u.1)
    · rw [if_pos hhit, Option.some_inj] at hcp
      have hpeq : p = (sample, ints) :=
        assoc_eq_of_keys_nodup hkeys hp hsm (by rw [hcp])
      rw [hpeq] at hhit
      obtain ⟨s, hs, ho⟩ := (sweepHits_mem_iff _ _ (sortByStart_pairwise _)
        hsepU hwfU _ humem).mp hhit
      rw [mem_sortByStart] at hs
      rw [sampleIntervalsOn, List.mem_filterMap] at hs
      obtain ⟨q, hq, hqs⟩ := hs
      by_cases hqc : q.1 = u.1
      · rw [if_pos hqc, Option.some_inj] at hqs
        exact ⟨q, hq, hqc, hqs ▸ ho⟩
      · rw [if_neg hqc] at hqs
        cases hqs
    · rw [if_neg hhit] at hcp
      cases hcp
  · rintro ⟨q, hq, hqc, ho⟩
    rw [List.mem_filterMap]
    refine ⟨(sample, ints), hsm, ?_⟩
    have hhit : (u.2.1, u.2.2) ∈
        sweepHits (sortByStart (sampleIntervalsOn ints u.1)) (unionByChrom pbs u.1) := by
      apply (sweepHits_mem_iff _ _ (sortByStart_pairwise _) hsepU hwfU _ humem).mpr
      refine ⟨(q.2.1, q.2.2), ?_, ho⟩
      rw [mem_sortByStart, sampleIntervalsOn, List.mem_filterMap]
      exact ⟨q, hq, by rw [if_pos hqc]⟩
    rw [if_pos hhit]

/-- C3, witness: samples `A = [chr1 0 10)` and `B = [chr1 5 15)` produce
the union peak `(chr1, 0, 15)`; `A` belongs to its membership list. -/
theorem C3_witness :
    ("A" ∈ union_peaks_membership
        [("A", [("chr1", (0 : Int), (10 : Int))]), ("B", [("chr1", (5 : Int), (15 : Int))])]
        ("chr1", (0 : Int), (15 : Int))
      ↔ ∃ q ∈ [("chr1", (0 : Int), (10 : Int))], q.1 = "chr1"
          ∧ intervals_overlap (q.2.1, q.2.2) ((0 : Int), (15 : Int)) = true)
    ∧ (union_peaks_membership
        [("A", [("chr1", (0 : Int), (10 : Int))]), ("B", [("chr1", (5 : Int), (15 : Int))])]
        ("chr1", (0 : Int), (15 : Int))).Nodup
    ∧ (union_peaks_membership
        [("A", [("chr1", (0 : Int), (10 : Int))]), ("B", [("chr1", (5 : Int), (15 : Int))])]
        ("chr1", (0 : Int), (15 : Int))).Pairwise (fun a b : String => a ≤ b) := by
  have h1 : chromsOf (allPeaks [("A", [("chr1", (0 : Int), (10 : Int))]),
      ("B", [("chr1", (5 : Int), (15 : Int))])]) = ["chr1"] := by decide
  have hchr : sortedChroms [("A", [("chr1", (0 : Int), (10 : Int))]),
      ("B", [("chr1", (5 : Int), (15 : Int))])] = ["chr1"] := by
    rw [sortedChroms, h1]
    exact List.mergeSort_of_sorted (by decide)
  have hpool : chromToAll [("A", [("chr1", (0 : Int), (10 : Int))]),
      ("B", [("chr1", (5 : Int), (15 : Int))])] "chr1"
      = [((0 : Int), (10 : Int)), (5, 15)] := by decide
  have hmerge : merge_intervals_1d [((0 : Int), (10 : Int)), (5, 15)]
      = [((0 : Int), (15 : Int))] := by
    rw [merge_intervals_1d_eq]
    unfold merge_intervals
    rw [sortByStart_of_sorted (by decide)]
    decide
  have hul : union_peaks_list [("A", [("chr1", (0 : Int), (10 : Int))]),
      ("B", [("chr1", (5 : Int), (15 : Int))])] = [("chr1", (0 : Int), (15 : Int))] := by
    rw [union_peaks_list, hchr, List.flatMap_cons, List.flatMap_nil, hpool, hmerge]
    decide
  exact C3_membership_exact
    [("A", [("chr1", (0 : Int), (10 : Int))]), ("B", [("chr1", (5 : Int), (15 : Int))])]
    (by decide) (by decide) ("chr1", (0 : Int), (15 : Int)) (by rw [hul]; decide)
    "A" [("chr1", (0 : Int), (10 : Int))] (by decide)

/-! ### The forward sweep of `annotate_overlaps` -/

theorem sortFeatsByStart_pairwise (l : List FeatureInterval) :
    (sortFeatsByStart l).Pairwise (fun a b => a.start ≤ b.start) := by
  have h := @List.sorted_mergeSort FeatureInterval (fun a b => decide (a.start ≤ b.start))
    (by intro a b c h1 h2; simp only [decide_eq_true_eq] at h1 h2 ⊢; omega)
    (by intro a b; simp only [Bool.or_eq_true, decide_eq_true_eq]; omega) l
  exact h.imp (by intro a b hb; simpa using hb)

theorem sortByStartIdx_pairwise (l : List (Int × Int × Nat)) :
    (sortByStartIdx l).Pairwise (fun a b => a.1 ≤ b.1) := by
  have h := @List.sorted_mergeSort (Int × Int × Nat) (fun a b => decide (a.1 ≤ b.1))
    (by intro a b c h1 h2; simp only [decide_eq_true_eq] at h1 h2 ⊢; omega)
    (by intro a b; simp only [Bool.or_eq_true, decide_eq_true_eq]; omega) l
  exact h.imp (by intro a b hb; simpa using hb)

/-- After dropping the sorted prefix with `start < pe`, every remaining
feature has `start ≥ pe`. -/
theorem dropWhile_start_ge {pe : Int} :
    ∀ {l : List FeatureInterval}, l.Pairwise (fun a b => a.start ≤ b.start) →
      ∀ f ∈ l.dropWhile (fun f => decide (f.start < pe)), pe ≤ f.start := by
  intro l
  induction l with
  | nil =>
    intro _ f hf
    rw [List.dropWhile_nil] at hf
    cases hf
  | cons x t ih =>
    intro hs f hf
    rw [List.dropWhile_cons] at hf
    by_cases hx : x.start < pe
    · rw [if_pos (decide_eq_true hx)] at hf
      exact ih (List.pairwise_cons.mp hs).2 f hf
    · rw [if_neg (by simpa using hx)] at hf
      rcases List.mem_cons.mp hf with rfl | hf
      · omega
      · have := (List.pairwise_cons.mp hs).1 f hf
        omega

/-- The pointer-advance plus bounded forward scan of `annotate_overlaps`
computes exactly the overlap filter over the whole sorted feature list. -/
theorem cand_eq_filter (ps pe : Int) {fl : List FeatureInterval}
    (hsort : fl.Pairwise (fun a b => a.start ≤ b.start)) :
    ((fl.dropWhile (fun f => decide (f.stop ≤ ps))).takeWhile
        (fun f => decide (f.start < pe))).filter
      (fun f => intervals_overlap_coords ps pe f.start f.stop)
    = fl.filter (fun f => intervals_overlap_coords ps pe f.start f.stop) := by
  have hfl' : (fl.dropWhile (fun f => decide (f.stop ≤ ps))).Pairwise
      (fun a b => a.start ≤ b.start) :=
    hsort.sublist (List.dropWhile_sublist _)
  conv_rhs =>
    rw [← List.takeWhile_append_dropWhile (fun f => decide (f.stop ≤ ps)) fl]
  rw [List.filter_append]
  have h1 : (fl.takeWhile (fun f => decide (f.stop ≤ ps))).filter
      (fun f => intervals_overlap_coords ps pe f.start f.stop) = [] := by
    rw [List.filter_eq_nil_iff]
    intro f hf
    have hps := List.mem_takeWhile_imp hf
    rw [decide_eq_true_eq] at hps
    rw [intervals_overlap_coords, Bool.and_eq_true, decide_eq_true_eq, decide_eq_true_eq]
    omega
  rw [h1, List.nil_append]
  conv_rhs =>
    rw [← List.takeWhile_append_dropWhile (fun f => decide (f.start < pe))
      (fl.dropWhile (fun f => decide (f.stop ≤ ps)))]
  rw [List.filter_append]
  have h2 : ((fl.dropWhile (fun f => decide (f.stop ≤ ps))).dropWhile
      (fun f => decide (f.start < pe))).filter
      (fun f => intervals_overlap_coords ps pe f.start f.stop) = [] := by
    rw [List.filter_eq_nil_iff]
    intro f hf
    have hge := dropWhile_start_ge hfl' f hf
    rw [intervals_overlap_coords, Bool.and_eq_true, decide_eq_true_eq, decide_eq_true_eq]
    omega
  rw [h2, List.append_nil]

/-- Dropping features that end before an earlier peak start does not
change the overlap filter of any peak starting no earlier. -/
theorem filter_dropWhile_eq {fl : List FeatureInterval} {ps ps' pe' : Int}
    (hle : ps ≤ ps') :
    (fl.dropWhile (fun f => decide (f.stop ≤ ps))).filter
      (fun f => intervals_overlap_coords ps' pe' f.start f.stop)
    = fl.filter (fun f => intervals_overlap_coords ps' pe' f.start f.stop) := by
  conv_rhs =>
    rw [← List.takeWhile_append_dropWhile (fun f => decide (f.stop ≤ ps)) fl]
  rw [List.filter_append]
  have h1 : (fl.takeWhile (fun f => decide (f.stop ≤ ps))).filter
      (fun f => intervals_overlap_coords ps' pe' f.start f.stop) = [] := by
    rw [List.filter_eq_nil_iff]
    intro f hf
    have hps := List.mem_takeWhile_imp hf
    rw [decide_eq_true_eq] at hps
    rw [intervals_overlap_coords, Bool.and_eq_true, decide_eq_true_eq, decide_eq_true_eq]
    omega
  rw [h1, List.nil_append]

/-- Every entry the sweep records carries a peak index from the peak
list. -/
theorem annotateSweep_idx_mem :
    ∀ (plist : List (Int × Int × Nat)) (fl : List FeatureInterval),
      ∀ e ∈ annotateSweep fl plist, e.1 ∈ plist.map (fun t => t.2.2) := by
  intro plist
  induction plist with
  | nil =>
    intro fl e he
    cases he
  | cons t rest ih =>
    intro fl e he
    rw [annotateSweep] at he
    rcases List.mem_append.mp he with hm | hm
    · by_cases hc : (((fl.dropWhile (fun f => decide (f.stop ≤ t.1))).takeWhile
          (fun f => decide (f.start < t.2.1))).filter
          (fun f => intervals_overlap_coords t.1 t.2.1 f.start f.stop)).isEmpty = true
      · rw [if_pos hc] at hm
        cases hm
      · rw [if_neg hc] at hm
        rw [List.mem_singleton.mp hm]
        exact List.mem_cons_self _ _
    · exact List.mem_cons_of_mem _ (ih _ e hm)

theorem hitsLookup_append (a b : List (Nat × List FeatureInterval)) (i : Nat) :
    hitsLookup (a ++ b) i = hitsLookup a i ++ hitsLookup b i := by
  unfold hitsLookup
  rw [List.filterMap_append, List.flatten_append]

theorem hitsLookup_nil_of (h : List (Nat × List FeatureInterval)) (i : Nat)
    (hno : ∀ e ∈ h, e.1 ≠ i) : hitsLookup h i = [] := by
  unfold hitsLookup
  have : h.filterMap (fun q => if q.1 = i then some q.2 else none) = [] := by
    rw [List.filterMap_eq_nil_iff]
    intro e he
    rw [ite_eq_right_iff]
    intro hei
    exact absurd hei (hno e he)
  rw [this]
  rfl

/-- Reading the sweep's hits at a peak index present in the (sorted,
duplicate-free) peak list yields the overlap filter over the full sorted
feature list for that peak. -/
theorem annotateSweep_lookup :
    ∀ (plist : List (Int × Int × Nat)) (fl : List FeatureInterval) (pidx : Nat),
      fl.Pairwise (fun a b => a.start ≤ b.start) →
      plist.Pairwise (fun a b => a.1 ≤ b.1) →
      (plist.map (fun t => t.2.2)).Nodup →
      ∀ ps pe : Int, (ps, pe, pidx) ∈ plist →
        hitsLookup (annotateSweep fl plist) pidx
          = fl.filter (fun f => intervals_overlap_coords ps pe f.start f.stop) := by
  intro plist
  induction plist with
  | nil =>
    intro fl pidx _ _ _ ps pe hmem
    cases hmem
  | cons t rest ih =>
    intro fl pidx hfl hps hnd ps pe hmem
    rw [annotateSweep, hitsLookup_append]
    rcases List.mem_cons.mp hmem with ht | ht
    · have hidx : t.2.2 = pidx := by rw [← ht]
      have hts : t.1 = ps := by rw [← ht]
      have hte : t.2.1 = pe := by rw [← ht]
      have hrest : hitsLookup (annotateSweep
          (fl.dropWhile (fun f => decide (f.stop ≤ t.1))) rest) pidx = [] := by
        apply hitsLookup_nil_of
        intro e he
        have hein := annotateSweep_idx_mem rest _ e he
        intro hei
        rw [List.map_cons, List.nodup_cons] at hnd
        exact hnd.1 (hidx ▸ hei ▸ hein)
      rw [hrest, List.append_nil]
      have hcand := cand_eq_filter t.1 t.2.1 hfl
      by_cases hc : (((fl.dropWhile (fun f => decide (f.stop ≤ t.1))).takeWhile
          (fun f => decide (f.start < t.2.1))).filter
          (fun f => intervals_overlap_coords t.1 t.2.1 f.start f.stop)).isEmpty = true
      · rw [if_pos hc]
        rw [List.isEmpty_iff] at hc
        rw [hc] at hcand
        rw [hitsLookup_nil_of _ _ (by intro e he; cases he)]
        rw [← hts, ← hte, ← hcand]
      · rw [if_neg hc]
        rw [hitsLookup]
        have : ([(t.2.2, ((fl.dropWhile (fun f => decide (f.stop ≤ t.1))).takeWhile
            (fun f => decide (f.start < t.2.1))).filter
            (fun f => intervals_overlap_coords t.1 t.2.1 f.start f.stop))].filterMap
            (fun q => if q.1 = pidx then some q.2 else none))
            = [((fl.dropWhile (fun f => decide (f.stop ≤ t.1))).takeWhile
            (fun f => decide (f.start < t.2.1))).filter
            (fun f => intervals_overlap_coords t.1 t.2.1 f.start f.stop)] := by
          rw [List.filterMap_cons, List.filterMap_nil, if_pos hidx]
        rw [this]
        rw [List.flatten, List.flatten, List.append_nil]
        rw [← hts, ← hte, ← hcand]
    · have hge : t.1 ≤ ps := by
        have := (List.pairwise_cons.mp hps).1 (ps, pe, pidx) ht
        simpa using this
      have hhead : hitsLookup (if (((fl.dropWhile (fun f => decide (f.stop ≤ t.1))).takeWhile
          (fun f => decide (f.start < t.2.1))).filter
          (fun f => intervals_overlap_coords t.1 t.2.1 f.start f.stop)).isEmpty
          then ([] : List (Nat × List FeatureInterval))
          else [(t.2.2, ((fl.dropWhile (fun f => decide (f.stop ≤ t.1))).takeWhile
            (fun f => decide (f.start < t.2.1))).filter
            (fun f => intervals_overlap_coords t.1 t.2.1 f.start f.stop))]) pidx = [] := by
        apply hitsLookup_nil_of
        intro e he
        by_cases hc : (((fl.dropWhile (fun f => decide (f.stop ≤ t.1))).takeWhile
            (fun f => decide (f.start < t.2.1))).filter
            (fun f => intervals_overlap_coords t.1 t.2.1 f.start f.stop)).isEmpty = true
        · rw [if_pos hc] at he
          cases he
        · rw [if_neg hc] at he
          rw [List.mem_singleton.mp he]
          intro hei
          rw [List.map_cons, List.nodup_cons] at hnd
          apply hnd.1
          have hei' : t.2.2 = pidx := hei
          rw [hei']
          exact List.mem_map.mpr ⟨(ps, pe, pidx), ht, rfl⟩
      rw [hhead, List.nil_append]
      have hfl' : (fl.dropWhile (fun f => decide (f.stop ≤ t.1))).Pairwise
          (fun a b => a.start ≤ b.start) := hfl.sublist (List.dropWhile_sublist _)
      rw [ih _ pidx hfl' (List.pairwise_cons.mp hps).2 (List.nodup_cons.mp hnd).2 ps pe ht]
      exact filter_dropWhile_eq hge

/-- The peak indices in a per-chromosome peak group are distinct. -/
theorem group_by_chrom_peaks_idx_nodup (peaks : List GenomicInterval) (c : String) :
    ((group_by_chrom_peaks peaks c).map (fun t => t.2.2)).Nodup := by
  unfold group_by_chrom_peaks groupWithIdx sortByStartIdx
  have hperm := (List.mergeSort_perm ((peaks.enum.filter
      (fun p => decide (p.2.1 = c))).map (fun p => (p.2.2.1, p.2.2.2, p.1)))
      (fun a b => decide (a.1 ≤ b.1))).map (fun t : Int × Int × Nat => t.2.2)
  apply hperm.symm.nodup
  rw [List.map_map]
  have hsub : ((peaks.enum.filter (fun p => decide (p.2.1 = c))).map
      ((fun t : Int × Int × Nat => t.2.2) ∘ (fun p : Nat × GenomicInterval =>
        (p.2.2.1, p.2.2.2, p.1)))).Sublist (peaks.enum.map Prod.fst) :=
    (List.filter_sublist _).map _
  exact (List.nodup_enum_map_fst peaks).sublist hsub

/-- The peak `(start, end, idx)` triple belongs to its chromosome's
group. -/
theorem group_by_chrom_peaks_mem {peaks : List GenomicInterval} {pidx : Nat}
    {p : GenomicInterval} (hp : peaks[pidx]? = some p) :
    (p.2.1, p.2.2, pidx) ∈ group_by_chrom_peaks peaks p.1 := by
  obtain ⟨hlen, hval⟩ := List.getElem?_eq_some_iff.mp hp
  unfold group_by_chrom_peaks groupWithIdx sortByStartIdx
  rw [List.mem_mergeSort, List.mem_map]
  refine ⟨(pidx, p), ?_, rfl⟩
  rw [List.mem_filter]
  constructor
  · have hlen' : pidx < peaks.enum.length := by
      rw [List.enum_length]
      exact hlen
    have := List.getElem_enum peaks pidx hlen'
    rw [hval] at this
    rw [← this]
    exact List.getElem_mem hlen'
  · rw [decide_eq_true_eq]

/-- `annotate_overlaps` at a valid peak index is the overlap filter of
that peak over its chromosome's sorted feature list. -/
theorem annotate_overlaps_eq_filter (peaks : List GenomicInterval)
    (fg : String → List FeatureInterval)
    (hfg : ∀ c, (fg c).Pairwise (fun a b => a.start ≤ b.start))
    (pidx : Nat) (p : GenomicInterval) (hp : peaks[pidx]? = some p) :
    annotate_overlaps peaks fg pidx
      = (fg p.1).filter
          (fun f => intervals_overlap_coords p.2.1 p.2.2 f.start f.stop) := by
  unfold annotate_overlaps
  rw [hp]
  exact annotateSweep_lookup (group_by_chrom_peaks peaks p.1) (fg p.1) pidx
    (hfg p.1) (sortByStartIdx_pairwise _) (group_by_chrom_peaks_idx_nodup peaks p.1)
    p.2.1 p.2.2 (group_by_chrom_peaks_mem hp)

/-! ### C10 -/

/-- C10: `annotate_overlaps` assigns to each peak index exactly the set
of features of that peak's chromosome group that strictly overlap the
peak — the shared forward pointer skips no overlapping feature and the
bounded scan collects no non-overlapping one. -/
theorem C10_annotate_overlaps_exact (peaks : List GenomicInterval)
    (fg : String → List FeatureInterval)
    (hfg : ∀ c, (fg c).Pairwise (fun a b => a.start ≤ b.start))
    (pidx : Nat) (p : GenomicInterval) (hp : peaks[pidx]? = some p)
    (f : FeatureInterval) :
    f ∈ annotate_overlaps peaks fg pidx
      ↔ f ∈ fg p.1 ∧ intervals_overlap_coords p.2.1 p.2.2 f.start f.stop = true := by
  rw [annotate_overlaps_eq_filter peaks fg hfg pidx p hp, List.mem_filter]

/-- C10, witness: a single peak `[0,10)` on `chr1` against a single
feature `[5,8)`. -/
theorem C10_witness :
    (⟨"chr1", (5 : Int), (8 : Int), "g", 5⟩ : FeatureInterval)
      ∈ annotate_overlaps [("chr1", (0 : Int), (10 : Int))]
          (fun _ => [⟨"chr1", (5 : Int), (8 : Int), "g", 5⟩]) 0
      ↔ (⟨"chr1", (5 : Int), (8 : Int), "g", 5⟩ : FeatureInterval)
          ∈ [(⟨"chr1", (5 : Int), (8 : Int), "g", 5⟩ : FeatureInterval)]
        ∧ intervals_overlap_coords 0 10 5 8 = true :=
  C10_annotate_overlaps_exact [("chr1", (0 : Int), (10 : Int))]
    (fun _ => [⟨"chr1", (5 : Int), (8 : Int), "g", 5⟩])
    (fun _ => List.pairwise_singleton _ _) 0 ("chr1", (0 : Int), (10 : Int))
    (by decide) ⟨"chr1", (5 : Int), (8 : Int), "g", 5⟩

/-! ### C7 -/

theorem mem_group_by_chrom_intervals {feats : List FeatureInterval} {c : String}
    {f : FeatureInterval} :
    f ∈ group_by_chrom_intervals feats c ↔ f ∈ feats ∧ f.chrom = c := by
  unfold group_by_chrom_intervals sortFeatsByStart
  rw [List.mem_mergeSort, List.mem_filter, decide_eq_true_eq]

theorem filter_ne_nil {l : List FeatureInterval} {q : FeatureInterval → Bool} :
    l.filter q ≠ [] ↔ ∃ f ∈ l, q f = true := by
  rw [ne_eq, List.filter_eq_nil_iff]
  push_neg
  simp

theorem annotate_peaks_getElem (peaks : List GenomicInterval)
    (genes : List GeneRecord) (pUp pDown : Int) {idx : Nat} {p : GenomicInterval}
    (hp : peaks[idx]? = some p) :
    (annotate_peaks peaks genes pUp pDown)[idx]?
      = some (annotateRow peaks genes pUp pDown idx p) := by
  obtain ⟨hlen, hval⟩ := List.getElem?_eq_some_iff.mp hp
  unfold annotate_peaks
  rw [List.getElem?_map]
  have henum : peaks.enum[idx]? = some (idx, p) := by
    apply List.getElem?_eq_some_iff.mpr
    have hlen' : idx < peaks.enum.length := by
      rw [List.enum_length]
      exact hlen
    refine ⟨hlen', ?_⟩
    rw [List.getElem_enum, hval]
  rw [henum]
  rfl

/-- Nonemptiness of the per-peak hit list, rephrased over the ungrouped
feature list. -/
theorem annotate_overlaps_ne_nil_iff (peaks : List GenomicInterval)
    (feats : List FeatureInterval) {pidx : Nat} {p : GenomicInterval}
    (hp : peaks[pidx]? = some p) :
    annotate_overlaps peaks (fun ch => group_by_chrom_intervals feats ch) pidx ≠ []
      ↔ ∃ f ∈ feats, f.chrom = p.1
          ∧ intervals_overlap_coords p.2.1 p.2.2 f.start f.stop = true := by
  rw [annotate_overlaps_eq_filter peaks (fun ch => group_by_chrom_intervals feats ch)
    (fun c => sortFeatsByStart_pairwise _) pidx p hp, filter_ne_nil]
  constructor
  · rintro ⟨f, hf, hov⟩
    rw [mem_group_by_chrom_intervals] at hf
    exact ⟨f, hf.1, hf.2, hov⟩
  · rintro ⟨f, hf, hc, hov⟩
    exact ⟨f, mem_group_by_chrom_intervals.mpr ⟨hf, hc⟩, hov⟩

/-- C7: classification is in strict priority order — a peak that strictly
overlaps any promoter window is `promoter` (even if it also overlaps gene
bodies); otherwise a peak overlapping any gene's full span is
`gene_body`; otherwise it is `intergenic`. -/
theorem C7_category_precedence (peaks : List GenomicInterval)
    (genes : List GeneRecord) (pUp pDown : Int) (idx : Nat)
    (p : GenomicInterval) (hp : peaks[idx]? = some p) :
    (annotate_peaks peaks genes pUp pDown)[idx]?
        = some (annotateRow peaks genes pUp pDown idx p)
    ∧ ((∃ f ∈ build_promoters genes pUp pDown, f.chrom = p.1
          ∧ intervals_overlap_coords p.2.1 p.2.2 f.start f.stop = true) →
        (annotateRow peaks genes pUp pDown idx p).annot = "promoter")
    ∧ ((¬ ∃ f ∈ build_promoters genes pUp pDown, f.chrom = p.1
          ∧ intervals_overlap_coords p.2.1 p.2.2 f.start f.stop = true) →
        (∃ g ∈ genes, g.chrom = p.1
          ∧ intervals_overlap_coords p.2.1 p.2.2 g.start g.stop = true) →
        (annotateRow peaks genes pUp pDown idx p).annot = "gene_body")
    ∧ ((¬ ∃ f ∈ build_promoters genes pUp pDown, f.chrom = p.1
          ∧ intervals_overlap_coords p.2.1 p.2.2 f.start f.stop = true) →
        (¬ ∃ g ∈ genes, g.chrom = p.1
          ∧ intervals_overlap_coords p.2.1 p.2.2 g.start g.stop = true) →
        (annotateRow peaks genes pUp pDown idx p).annot = "intergenic") := by
  have hPiff : (promoter_hits peaks genes pUp pDown idx ≠ [])
      ↔ ∃ f ∈ build_promoters genes pUp pDown, f.chrom = p.1
          ∧ intervals_overlap_coords p.2.1 p.2.2 f.start f.stop = true := by
    unfold promoter_hits
    exact annotate_overlaps_ne_nil_iff peaks (build_promoters genes pUp pDown) hp
  have hGiff : (gene_hits peaks genes idx ≠ [])
      ↔ ∃ f ∈ geneBodies genes, f.chrom = p.1
          ∧ intervals_overlap_coords p.2.1 p.2.2 f.start f.stop = true := by
    unfold gene_hits
    exact annotate_overlaps_ne_nil_iff peaks (geneBodies genes) hp
  have hGconv : (∃ f ∈ geneBodies genes, f.chrom = p.1
      ∧ intervals_overlap_coords p.2.1 p.2.2 f.start f.stop = true)
      ↔ (∃ g ∈ genes, g.chrom = p.1
      ∧ intervals_overlap_coords p.2.1 p.2.2 g.start g.stop = true) := by
    unfold geneBodies
    constructor
    · rintro ⟨f, hf, hc, hov⟩
      rw [List.mem_map] at hf
      obtain ⟨g, hg, hfg⟩ := hf
      subst hfg
      exact ⟨g, hg, hc, hov⟩
    · rintro ⟨g, hg, hc, hov⟩
      exact ⟨⟨g.chrom, g.start, g.stop, g.gene_name, g.tss⟩,
        List.mem_map.mpr ⟨g, hg, rfl⟩, hc, hov⟩
  refine ⟨annotate_peaks_getElem peaks genes pUp pDown hp, ?_, ?_, ?_⟩
  · intro hex
    have hne := hPiff.mpr hex
    simp only [annotateRow]
    rw [if_pos hne]
  · intro hnex hgex
    have hPe : promoter_hits peaks genes pUp pDown idx = [] := by
      by_contra hne
      exact hnex (hPiff.mp hne)
    have hgne := hGiff.mpr (hGconv.mpr hgex)
    simp only [annotateRow]
    rw [if_neg (not_not_intro hPe), if_pos hgne]
  · intro hnex hngex
    have hPe : promoter_hits peaks genes pUp pDown idx = [] := by
      by_contra hne
      exact hnex (hPiff.mp hne)
    have hGe : gene_hits peaks genes idx = [] := by
      by_contra hne
      exact hngex (hGconv.mp (hGiff.mp hne))
    simp only [annotateRow]
    rw [if_neg (not_not_intro hPe), if_neg (not_not_intro hGe)]

/-- C7, witness: peak `[0,10)` overlapping the promoter window `[0,200)`
of a `+`-strand gene with TSS `0` is annotated `promoter`. -/
theorem C7_witness :
    ((annotate_peaks [("chr1", (0 : Int), (10 : Int))]
        [⟨"chr1", 0, 10000, "+", "gid", "g", 0⟩] 2000 200)[0]?
      = some (annotateRow [("chr1", (0 : Int), (10 : Int))]
        [⟨"chr1", 0, 10000, "+", "gid", "g", 0⟩] 2000 200 0 ("chr1", (0 : Int), (10 : Int))))
    ∧ (annotateRow [("chr1", (0 : Int), (10 : Int))]
        [⟨"chr1", 0, 10000, "+", "gid", "g", 0⟩] 2000 200 0
        ("chr1", (0 : Int), (10 : Int))).annot = "promoter" := by
  have h := C7_category_precedence [("chr1", (0 : Int), (10 : Int))]
    [⟨"chr1", 0, 10000, "+", "gid", "g", 0⟩] 2000 200 0
    ("chr1", (0 : Int), (10 : Int)) (by decide)
  exact ⟨h.1, h.2.1 (by decide)⟩

/-! ### The best-gene fold of `assign_best_gene_by_tss_distance` -/

/-- If no candidate beats the running best distance, the fold keeps its
state. -/
theorem assignFold_no_improve :
    ∀ (cands : List FeatureInterval) (center : Int) (g0 : String) (d0 s0 : Int),
      (∀ c ∈ cands, ¬ |center - c.tss| < d0) →
      cands.foldl (assignStep center) (g0, d0, s0) = (g0, d0, s0) := by
  intro cands
  induction cands with
  | nil => intro _ _ _ _ _; rfl
  | cons c rest ih =>
    intro center g0 d0 s0 h
    rw [List.foldl_cons]
    have hstep : assignStep center (g0, d0, s0) c = (g0, d0, s0) := by
      simp only [assignStep]
      rw [if_neg (h c (List.mem_cons_self _ _))]
    rw [hstep]
    exact ih center g0 d0 s0 (fun c' hc' => h c' (List.mem_cons_of_mem _ hc'))

/-- If some candidate beats the initial best distance, the fold returns
the first candidate attaining the minimal distance (strict improvement
only, so earlier candidates win ties). -/
theorem assignFold_first_min :
    ∀ (cands : List FeatureInterval) (center : Int) (g0 : String) (d0 s0 : Int),
      (∃ c ∈ cands, |center - c.tss| < d0) →
      ∃ (i : Nat) (hi : i < cands.length),
        cands.foldl (assignStep center) (g0, d0, s0)
          = ((cands.get ⟨i, hi⟩).gene_name, |center - (cands.get ⟨i, hi⟩).tss|,
             center - (cands.get ⟨i, hi⟩).tss)
        ∧ |center - (cands.get ⟨i, hi⟩).tss| < d0
        ∧ (∀ (j : Nat) (hj : j < cands.length),
            |center - (cands.get ⟨i, hi⟩).tss| ≤ |center - (cands.get ⟨j, hj⟩).tss|)
        ∧ (∀ (j : Nat) (hj : j < cands.length), j < i →
            |center - (cands.get ⟨i, hi⟩).tss| < |center - (cands.get ⟨j, hj⟩).tss|) := by
  intro cands
  induction cands with
  | nil =>
    rintro _ _ _ _ ⟨c, hc, _⟩
    cases hc
  | cons c rest ih =>
    intro center g0 d0 s0 hex
    rw [List.foldl_cons]
    by_cases h0 : |center - c.tss| < d0
    · have hstep : assignStep center (g0, d0, s0) c
          = (c.gene_name, |center - c.tss|, center - c.tss) := by
        simp only [assignStep]
        rw [if_pos h0]
      rw [hstep]
      by_cases hrest : ∃ c' ∈ rest, |center - c'.tss| < |center - c.tss|
      · obtain ⟨i, hi, heq, hlt, hmin, hfirst⟩ :=
          ih center c.gene_name |center - c.tss| (center - c.tss) hrest
        refine ⟨i + 1, Nat.succ_lt_succ hi, ?_, ?_, ?_, ?_⟩
        · exact heq
        · exact lt_trans hlt h0
        · intro j hj
          rcases j with _ | j
          · exact le_of_lt hlt
          · exact hmin j (Nat.lt_of_succ_lt_succ hj)
        · intro j hj hji
          rcases j with _ | j
          · exact hlt
          · exact hfirst j (Nat.lt_of_succ_lt_succ hj) (Nat.lt_of_succ_lt_succ hji)
      · push_neg at hrest
        have hkeep := assignFold_no_improve rest center c.gene_name
          |center - c.tss| (center - c.tss)
          (fun c' hc' => not_lt.mpr (hrest c' hc'))
        refine ⟨0, Nat.succ_pos _, ?_, ?_, ?_, ?_⟩
        · exact hkeep
        · exact h0
        · intro j hj
          rcases j with _ | j
          · exact le_refl _
          · exact hrest (rest.get ⟨j, Nat.lt_of_succ_lt_succ hj⟩)
              (List.get_mem rest j (Nat.lt_of_succ_lt_succ hj))
        · intro j _ hj0
          exact absurd hj0 (Nat.not_lt_zero j)
    · have hstep : assignStep center (g0, d0, s0) c = (g0, d0, s0) := by
        simp only [assignStep]
        rw [if_neg h0]
      rw [hstep]
      have hex' : ∃ c' ∈ rest, |center - c'.tss| < d0 := by
        obtain ⟨c', hc', hlt⟩ := hex
        rcases List.mem_cons.mp hc' with rfl | hc'
        · exact absurd hlt h0
        · exact ⟨c', hc', hlt⟩
      obtain ⟨i, hi, heq, hlt, hmin, hfirst⟩ := ih center g0 d0 s0 hex'
      have hcle : |center - (rest.get ⟨i, hi⟩).tss| < |center - c.tss| :=
        lt_of_lt_of_le hlt (not_lt.mp h0)
      refine ⟨i + 1, Nat.succ_lt_succ hi, ?_, ?_, ?_, ?_⟩
      · exact heq
      · exact hlt
      · intro j hj
        rcases j with _ | j
        · exact le_of_lt hcle
        · exact hmin j (Nat.lt_of_succ_lt_succ hj)
      · intro j hj hji
        rcases j with _ | j
        · exact hcle
        · exact hfirst j (Nat.lt_of_succ_lt_succ hj) (Nat.lt_of_succ_lt_succ hji)

/-- Specification of `assign_best_gene_by_tss_distance` when every
candidate distance is below the `10**18` sentinel. -/
theorem assign_best_spec (center : Int) (cands : List FeatureInterval)
    (hne : cands ≠ [])
    (hb : ∀ c ∈ cands, |center - c.tss| < 10 ^ 18) :
    ∃ (i : Nat) (hi : i < cands.length),
      assign_best_gene_by_tss_distance center cands
        = ((cands.get ⟨i, hi⟩).gene_name, center - (cands.get ⟨i, hi⟩).tss)
      ∧ (∀ (j : Nat) (hj : j < cands.length),
          |center - (cands.get ⟨i, hi⟩).tss| ≤ |center - (cands.get ⟨j, hj⟩).tss|)
      ∧ (∀ (j : Nat) (hj : j < cands.length), j < i →
          |center - (cands.get ⟨i, hi⟩).tss| < |center - (cands.get ⟨j, hj⟩).tss|) := by
  obtain ⟨c0, hc0⟩ := List.exists_mem_of_ne_nil cands hne
  obtain ⟨i, hi, heq, _, hmin, hfirst⟩ :=
    assignFold_first_min cands center "" (10 ^ 18) 0 ⟨c0, hc0, hb c0 hc0⟩
  refine ⟨i, hi, ?_, hmin, hfirst⟩
  unfold assign_best_gene_by_tss_distance
  rw [heq]

/-! ### C8 -/

/-- C8 corrected, counterexample to the claim as stated: a peak `[0,10)`
(center 5) annotated `gene_body` by its unique overlapping candidate — a
`-`-strand gene spanning `[0, 10^18 + 6)` with TSS `10^18 + 5` — is
assigned the empty gene with distance 0 instead of that candidate,
because the candidate's distance `10^18` is not below the `10**18`
sentinel initialising `best_dist`. -/
theorem C8_counterexample_sentinel :
    assign_best_gene_by_tss_distance 5
        [⟨"chr1", 0, 10 ^ 18 + 6, "g", 10 ^ 18 + 5⟩] = ("", 0)
    ∧ gene_hits [("chr1", (0 : Int), (10 : Int))]
        [⟨"chr1", 0, 10 ^ 18 + 6, "-", "gid", "g", 10 ^ 18 + 5⟩] 0
      = [⟨"chr1", 0, 10 ^ 18 + 6, "g", 10 ^ 18 + 5⟩]
    ∧ promoter_hits [("chr1", (0 : Int), (10 : Int))]
        [⟨"chr1", 0, 10 ^ 18 + 6, "-", "gid", "g", 10 ^ 18 + 5⟩] 2000 200 0 = []
    ∧ (annotateRow [("chr1", (0 : Int), (10 : Int))]
        [⟨"chr1", 0, 10 ^ 18 + 6, "-", "gid", "g", 10 ^ 18 + 5⟩] 2000 200 0
        ("chr1", (0 : Int), (10 : Int))).annot = "gene_body"
    ∧ (annotateRow [("chr1", (0 : Int), (10 : Int))]
        [⟨"chr1", 0, 10 ^ 18 + 6, "-", "gid", "g", 10 ^ 18 + 5⟩] 2000 200 0
        ("chr1", (0 : Int), (10 : Int))).gene = ""
    ∧ (annotateRow [("chr1", (0 : Int), (10 : Int))]
        [⟨"chr1", 0, 10 ^ 18 + 6, "-", "gid", "g", 10 ^ 18 + 5⟩] 2000 200 0
        ("chr1", (0 : Int), (10 : Int))).distance_to_TSS = "0"
    ∧ ("" : String) ≠ "g" := by
  have hG : gene_hits [("chr1", (0 : Int), (10 : Int))]
      [⟨"chr1", 0, 10 ^ 18 + 6, "-", "gid", "g", 10 ^ 18 + 5⟩] 0
      = [⟨"chr1", 0, 10 ^ 18 + 6, "g", 10 ^ 18 + 5⟩] := by
    rw [gene_hits, annotate_overlaps_eq_filter [("chr1", (0 : Int), (10 : Int))]
      (fun ch => group_by_chrom_intervals
        (geneBodies [⟨"chr1", 0, 10 ^ 18 + 6, "-", "gid", "g", 10 ^ 18 + 5⟩]) ch)
      (fun c => sortFeatsByStart_pairwise _) 0 ("chr1", (0 : Int), (10 : Int)) (by decide)]
    rw [show group_by_chrom_intervals
        (geneBodies [⟨"chr1", 0, 10 ^ 18 + 6, "-", "gid", "g", 10 ^ 18 + 5⟩]) "chr1"
        = [⟨"chr1", 0, 10 ^ 18 + 6, "g", 10 ^ 18 + 5⟩] from ?_]
    · decide
    · unfold group_by_chrom_intervals sortFeatsByStart
      rw [show (geneBodies [⟨"chr1", 0, 10 ^ 18 + 6, "-", "gid", "g", 10 ^ 18 + 5⟩]).filter
          (fun f => decide (f.chrom = "chr1"))
          = [⟨"chr1", 0, 10 ^ 18 + 6, "g", 10 ^ 18 + 5⟩] from by decide]
      exact List.mergeSort_singleton _
  have hP : promoter_hits [("chr1", (0 : Int), (10 : Int))]
      [⟨"chr1", 0, 10 ^ 18 + 6, "-", "gid", "g", 10 ^ 18 + 5⟩] 2000 200 0 = [] := by
    rw [promoter_hits, annotate_overlaps_eq_filter [("chr1", (0 : Int), (10 : Int))]
      (fun ch => group_by_chrom_intervals
        (build_promoters [⟨"chr1", 0, 10 ^ 18 + 6, "-", "gid", "g", 10 ^ 18 + 5⟩] 2000 200) ch)
      (fun c => sortFeatsByStart_pairwise _) 0 ("chr1", (0 : Int), (10 : Int)) (by decide)]
    rw [show group_by_chrom_intervals
        (build_promoters [⟨"chr1", 0, 10 ^ 18 + 6, "-", "gid", "g", 10 ^ 18 + 5⟩] 2000 200)
          "chr1"
        = [⟨"chr1", 10 ^ 18 + 5 - 200, 10 ^ 18 + 5 + 2000, "g", 10 ^ 18 + 5⟩] from ?_]
    · decide
    · unfold group_by_chrom_intervals sortFeatsByStart
      rw [show (build_promoters [⟨"chr1", 0, 10 ^ 18 + 6, "-", "gid", "g", 10 ^ 18 + 5⟩]
          2000 200).filter (fun f => decide (f.chrom = "chr1"))
          = [⟨"chr1", 10 ^ 18 + 5 - 200, 10 ^ 18 + 5 + 2000, "g", 10 ^ 18 + 5⟩] from by decide]
      exact List.mergeSort_singleton _
  have habest : assign_best_gene_by_tss_distance 5
      [⟨"chr1", 0, 10 ^ 18 + 6, "g", 10 ^ 18 + 5⟩] = ("", 0) := by decide
  have hrow : (annotateRow [("chr1", (0 : Int), (10 : Int))]
      [⟨"chr1", 0, 10 ^ 18 + 6, "-", "gid", "g", 10 ^ 18 + 5⟩] 2000 200 0
      ("chr1", (0 : Int), (10 : Int)))
      = ⟨"peak_0", "chr1", "0", "10", "gene_body", "", "0"⟩ := by
    simp only [annotateRow]
    rw [if_neg (not_not_intro hP), if_pos (by rw [hG]; exact List.cons_ne_nil _ _), hG]
    rw [show Int.fdiv ((("chr1", (0 : Int), (10 : Int)) : GenomicInterval).2.1
        + (("chr1", (0 : Int), (10 : Int)) : GenomicInterval).2.2) 2 = 5 from by decide]
    rw [habest]
    decide
  refine ⟨habest, hG, hP, ?_, ?_, ?_, by decide⟩
  · rw [hrow]
  · rw [hrow]
  · rw [hrow]

/-- C8 amended: when a peak is annotated `promoter` or `gene_body` and
every overlapping candidate's TSS lies within `10^18 - 1` of the peak
center (Python floor division `(start + end) // 2`), the assigned gene is
the first candidate, in candidate iteration order — the chromosome-sorted
feature order, as the first two conjuncts pin down — whose `|center -
tss|` is minimal, and the reported distance is the signed `center - tss`
of that candidate. -/
theorem C8_best_gene_amended (peaks : List GenomicInterval)
    (genes : List GeneRecord) (pUp pDown : Int) (idx : Nat)
    (p : GenomicInterval) (hp : peaks[idx]? = some p) :
    (promoter_hits peaks genes pUp pDown idx
        = (group_by_chrom_intervals (build_promoters genes pUp pDown) p.1).filter
            (fun f => intervals_overlap_coords p.2.1 p.2.2 f.start f.stop))
    ∧ (gene_hits peaks genes idx
        = (group_by_chrom_intervals (geneBodies genes) p.1).filter
            (fun f => intervals_overlap_coords p.2.1 p.2.2 f.start f.stop))
    ∧ (promoter_hits peaks genes pUp pDown idx ≠ [] →
        (∀ f ∈ promoter_hits peaks genes pUp pDown idx,
          |Int.fdiv (p.2.1 + p.2.2) 2 - f.tss| < 10 ^ 18) →
        ∃ (i : Nat) (hi : i < (promoter_hits peaks genes pUp pDown idx).length),
          (annotateRow peaks genes pUp pDown idx p).gene
              = ((promoter_hits peaks genes pUp pDown idx).get ⟨i, hi⟩).gene_name
          ∧ (annotateRow peaks genes pUp pDown idx p).distance_to_TSS
              = toString (Int.fdiv (p.2.1 + p.2.2) 2
                  - ((promoter_hits peaks genes pUp pDown idx).get ⟨i, hi⟩).tss)
          ∧ (∀ (j : Nat) (hj : j < (promoter_hits peaks genes pUp pDown idx).length),
              |Int.fdiv (p.2.1 + p.2.2) 2
                  - ((promoter_hits peaks genes pUp pDown idx).get ⟨i, hi⟩).tss|
                ≤ |Int.fdiv (p.2.1 + p.2.2) 2
                  - ((promoter_hits peaks genes pUp pDown idx).get ⟨j, hj⟩).tss|)
          ∧ (∀ (j : Nat) (hj : j < (promoter_hits peaks genes pUp pDown idx).length),
              j < i →
              |Int.fdiv (p.2.1 + p.2.2) 2
                  - ((promoter_hits peaks genes pUp pDown idx).get ⟨i, hi⟩).tss|
                < |Int.fdiv (p.2.1 + p.2.2) 2
                  - ((promoter_hits peaks genes pUp pDown idx).get ⟨j, hj⟩).tss|))
    ∧ (promoter_hits peaks genes pUp pDown idx = [] →
        gene_hits peaks genes idx ≠ [] →
        (∀ f ∈ gene_hits peaks genes idx,
          |Int.fdiv (p.2.1 + p.2.2) 2 - f.tss| < 10 ^ 18) →
        ∃ (i : Nat) (hi : i < (gene_hits peaks genes idx).length),
          (annotateRow peaks genes pUp pDown idx p).gene
              = ((gene_hits peaks genes idx).get ⟨i, hi⟩).gene_name
          ∧ (annotateRow peaks genes pUp pDown idx p).distance_to_TSS
              = toString (Int.fdiv (p.2.1 + p.2.2) 2
                  - ((gene_hits peaks genes idx).get ⟨i, hi⟩).tss)
          ∧ (∀ (j : Nat) (hj : j < (gene_hits peaks genes idx).length),
              |Int.fdiv (p.2.1 + p.2.2) 2 - ((gene_hits peaks genes idx).get ⟨i, hi⟩).tss|
                ≤ |Int.fdiv (p.2.1 + p.2.2) 2
                  - ((gene_hits peaks genes idx).get ⟨j, hj⟩).tss|)
          ∧ (∀ (j : Nat) (hj : j < (gene_hits peaks genes idx).length), j < i →
              |Int.fdiv (p.2.1 + p.2.2) 2 - ((gene_hits peaks genes idx).get ⟨i, hi⟩).tss|
                < |Int.fdiv (p.2.1 + p.2.2) 2
                  - ((gene_hits peaks genes idx).get ⟨j, hj⟩).tss|)) := by
  refine ⟨?_, ?_, ?_, ?_⟩
  · unfold promoter_hits
    exact annotate_overlaps_eq_filter peaks
      (fun ch => group_by_chrom_intervals (build_promoters genes pUp pDown) ch)
      (fun c => sortFeatsByStart_pairwise _) idx p hp
  · unfold gene_hits
    exact annotate_overlaps_eq_filter peaks
      (fun ch => group_by_chrom_intervals (geneBodies genes) ch)
      (fun c => sortFeatsByStart_pairwise _) idx p hp
  · intro hne hb
    obtain ⟨i, hi, heq, hmin, hfirst⟩ :=
      assign_best_spec (Int.fdiv (p.2.1 + p.2.2) 2)
        (promoter_hits peaks genes pUp pDown idx) hne hb
    refine ⟨i, hi, ?_, ?_, hmin, hfirst⟩
    · simp only [annotateRow]
      rw [if_pos hne, heq]
    · simp only [annotateRow]
      rw [if_pos hne, heq]
  · intro hPe hne hb
    obtain ⟨i, hi, heq, hmin, hfirst⟩ :=
      assign_best_spec (Int.fdiv (p.2.1 + p.2.2) 2) (gene_hits peaks genes idx) hne hb
    refine ⟨i, hi, ?_, ?_, hmin, hfirst⟩
    · simp only [annotateRow]
      rw [if_neg (not_not_intro hPe), if_pos hne, heq]
    · simp only [annotateRow]
      rw [if_neg (not_not_intro hPe), if_pos hne, heq]

/-- C8 amended, witness: the promoter case of the `C7_witness` scenario,
with the single candidate window `[0,200)` of gene `g` (TSS 0). -/
theorem C8_witness :
    ∃ (i : Nat) (hi : i < (promoter_hits [("chr1", (0 : Int), (10 : Int))]
        [⟨"chr1", 0, 10000, "+", "gid", "g", 0⟩] 2000 200 0).length),
      (annotateRow [("chr1", (0 : Int), (10 : Int))]
          [⟨"chr1", 0, 10000, "+", "gid", "g", 0⟩] 2000 200 0
          ("chr1", (0 : Int), (10 : Int))).gene
          = ((promoter_hits [("chr1", (0 : Int), (10 : Int))]
              [⟨"chr1", 0, 10000, "+", "gid", "g", 0⟩] 2000 200 0).get ⟨i, hi⟩).gene_name
      ∧ (annotateRow [("chr1", (0 : Int), (10 : Int))]
          [⟨"chr1", 0, 10000, "+", "gid", "g", 0⟩] 2000 200 0
          ("chr1", (0 : Int), (10 : Int))).distance_to_TSS
          = toString (Int.fdiv ((("chr1", (0 : Int), (10 : Int)) : GenomicInterval).2.1
              + (("chr1", (0 : Int), (10 : Int)) : GenomicInterval).2.2) 2
              - ((promoter_hits [("chr1", (0 : Int), (10 : Int))]
                  [⟨"chr1", 0, 10000, "+", "gid", "g", 0⟩] 2000 200 0).get ⟨i, hi⟩).tss)
      ∧ (∀ (j : Nat) (hj : j < (promoter_hits [("chr1", (0 : Int), (10 : Int))]
            [⟨"chr1", 0, 10000, "+", "gid", "g", 0⟩] 2000 200 0).length),
          |Int.fdiv ((("chr1", (0 : Int), (10 : Int)) : GenomicInterval).2.1
              + (("chr1", (0 : Int), (10 : Int)) : GenomicInterval).2.2) 2
              - ((promoter_hits [("chr1", (0 : Int), (10 : Int))]
                  [⟨"chr1", 0, 10000, "+", "gid", "g", 0⟩] 2000 200 0).get ⟨i, hi⟩).tss|
            ≤ |Int.fdiv ((("chr1", (0 : Int), (10 : Int)) : GenomicInterval).2.1
              + (("chr1", (0 : Int), (10 : Int)) : GenomicInterval).2.2) 2
              - ((promoter_hits [("chr1", (0 : Int), (10 : Int))]
                  [⟨"chr1", 0, 10000, "+", "gid", "g", 0⟩] 2000 200 0).get ⟨j, hj⟩).tss|)
      ∧ (∀ (j : Nat) (hj : j < (promoter_hits [("chr1", (0 : Int), (10 : Int))]
            [⟨"chr1", 0, 10000, "+", "gid", "g", 0⟩] 2000 200 0).length), j < i →
          |Int.fdiv ((("chr1", (0 : Int), (10 : Int)) : GenomicInterval).2.1
              + (("chr1", (0 : Int), (10 : Int)) : GenomicInterval).2.2) 2
              - ((promoter_hits [("chr1", (0 : Int), (10 : Int))]
                  [⟨"chr1", 0, 10000, "+", "gid", "g", 0⟩] 2000 200 0).get ⟨i, hi⟩).tss|
            < |Int.fdiv ((("chr1", (0 : Int), (10 : Int)) : GenomicInterval).2.1
              + (("chr1", (0 : Int), (10 : Int)) : GenomicInterval).2.2) 2
              - ((promoter_hits [("chr1", (0 : Int), (10 : Int))]
                  [⟨"chr1", 0, 10000, "+", "gid", "g", 0⟩] 2000 200 0).get ⟨j, hj⟩).tss|) := by
  have h := C8_best_gene_amended [("chr1", (0 : Int), (10 : Int))]
    [⟨"chr1", 0, 10000, "+", "gid", "g", 0⟩] 2000 200 0
    ("chr1", (0 : Int), (10 : Int)) (by decide)
  have hPH : promoter_hits [("chr1", (0 : Int), (10 : Int))]
      [⟨"chr1", 0, 10000, "+", "gid", "g", 0⟩] 2000 200 0
      = [⟨"chr1", 0, 200, "g", 0⟩] := by
    rw [h.1]
    rw [show group_by_chrom_intervals
        (build_promoters [⟨"chr1", 0, 10000, "+", "gid", "g", 0⟩] 2000 200) "chr1"
        = [⟨"chr1", 0, 200, "g", 0⟩] from ?_]
    · decide
    · unfold group_by_chrom_intervals sortFeatsByStart
      rw [show (build_promoters [⟨"chr1", 0, 10000, "+", "gid", "g", 0⟩] 2000 200).filter
          (fun f => decide (f.chrom = "chr1")) = [⟨"chr1", 0, 200, "g", 0⟩] from by decide]
      exact List.mergeSort_singleton _
  exact h.2.2.1 (by rw [hPH]; exact List.cons_ne_nil _ _) (by rw [hPH]; decide)

/-! ### The binary search of `nearest_tss` -/

theorem sorted_get_mono {a : List Int} (hsort : a.Pairwise (fun s t => s ≤ t))
    {i j : Nat} (hij : i ≤ j) (hj : j < a.length) :
    a.get ⟨i, lt_of_le_of_lt hij hj⟩ ≤ a.get ⟨j, hj⟩ := by
  rcases Nat.lt_or_eq_of_le hij with h | h
  · have := List.pairwise_iff_getElem.mp hsort i j (lt_of_le_of_lt hij hj) hj h
    simpa using this
  · subst h
    exact le_refl _

/-- Loop invariant of CPython's `bisect_left` binary search: starting
from a window whose left part is all `< x` and right part is all `≥ x`,
the loop returns the boundary. -/
theorem bisectLoop_spec (a : List Int) (x : Int)
    (hsort : a.Pairwise (fun s t => s ≤ t)) :
    ∀ (n lo hi : Nat), hi - lo ≤ n →
      hi ≤ a.length → lo ≤ hi →
      (∀ (k : Nat) (hk : k < a.length), k < lo → a.get ⟨k, hk⟩ < x) →
      (∀ (k : Nat) (hk : k < a.length), hi ≤ k → ¬ a.get ⟨k, hk⟩ < x) →
      lo ≤ bisectLoop a x lo hi ∧ bisectLoop a x lo hi ≤ hi
      ∧ (∀ (k : Nat) (hk : k < a.length), k < bisectLoop a x lo hi → a.get ⟨k, hk⟩ < x)
      ∧ (∀ (k : Nat) (hk : k < a.length), bisectLoop a x lo hi ≤ k →
          ¬ a.get ⟨k, hk⟩ < x) := by
  intro n
  induction n with
  | zero =>
    intro lo hi hn hlen hlohi hinvlo hinvhi
    have hle : lo = hi := by omega
    rw [bisectLoop, dif_neg (by omega : ¬ lo < hi)]
    exact ⟨le_refl _, hlohi, hinvlo, fun k hk hlk => hinvhi k hk (by omega)⟩
  | succ n ih =>
    intro lo hi hn hlen hlohi hinvlo hinvhi
    by_cases h : lo < hi
    · rw [bisectLoop, dif_pos h]
      have hmid1 : lo ≤ (lo + hi) / 2 := by omega
      have hmid2 : (lo + hi) / 2 < hi := by omega
      have hmlt : (lo + hi) / 2 < a.length := lt_of_lt_of_le hmid2 hlen
      have hgd : a.getD ((lo + hi) / 2) 0 = a.get ⟨(lo + hi) / 2, hmlt⟩ := by
        rw [List.getD_eq_getElem _ _ hmlt]
        rfl
      by_cases hcmp : a.getD ((lo + hi) / 2) 0 < x
      · rw [if_pos hcmp]
        have hlonew : ∀ (k : Nat) (hk : k < a.length),
            k < (lo + hi) / 2 + 1 → a.get ⟨k, hk⟩ < x := by
          intro k hk hkm
          rcases Nat.lt_or_ge k lo with hklo | hklo
          · exact hinvlo k hk hklo
          · have hkm' : k ≤ (lo + hi) / 2 := by omega
            have hmono := sorted_get_mono hsort hkm' hmlt
            rw [hgd] at hcmp
            omega
        have hres := ih ((lo + hi) / 2 + 1) hi (by omega) hlen (by omega) hlonew hinvhi
        exact ⟨le_trans (by omega) hres.1, hres.2.1, hres.2.2.1, hres.2.2.2⟩
      · rw [if_neg hcmp]
        have hhinew : ∀ (k : Nat) (hk : k < a.length),
            (lo + hi) / 2 ≤ k → ¬ a.get ⟨k, hk⟩ < x := by
          intro k hk hkm
          have hmono := sorted_get_mono hsort hkm hk
          rw [hgd] at hcmp
          omega
        have hres := ih lo ((lo + hi) / 2) (by omega) (le_of_lt hmlt) (by omega)
          hinvlo hhinew
        exact ⟨hres.1, le_trans hres.2.1 (by omega), hres.2.2.1, hres.2.2.2⟩
    · rw [bisectLoop, dif_neg h]
      exact ⟨le_refl _, hlohi, hinvlo, fun k hk hlk => hinvhi k hk (by omega)⟩

/-- `bisect_left` on a sorted list returns the leftmost insertion point. -/
theorem bisect_left_spec (a : List Int) (x : Int)
    (hsort : a.Pairwise (fun s t => s ≤ t)) :
    bisect_left a x ≤ a.length
    ∧ (∀ (k : Nat) (hk : k < a.length), k < bisect_left a x → a.get ⟨k, hk⟩ < x)
    ∧ (∀ (k : Nat) (hk : k < a.length), bisect_left a x ≤ k → x ≤ a.get ⟨k, hk⟩) := by
  have h := bisectLoop_spec a x hsort a.length 0 a.length (by omega) (le_refl _)
    (Nat.zero_le _) (by intro k hk h0; omega) (by intro k hk hlk; omega)
  exact ⟨h.2.1, h.2.2.1, fun k hk hle => not_lt.mp (h.2.2.2 k hk hle)⟩

theorem nearestStep_invalid {tl : List (Int × String)} {pos : Int}
    {st : Option Nat × Int × Int} {cand : Int}
    (h : ¬ (0 ≤ cand ∧ cand < (tl.length : Int))) :
    nearestStep tl pos st cand = st := by
  simp only [nearestStep]
  rw [if_neg h]

theorem nearestStep_skip {tl : List (Int × String)} {pos : Int}
    {st : Option Nat × Int × Int} {cand : Int}
    (h : 0 ≤ cand ∧ cand < (tl.length : Int))
    (hd : ¬ |pos - (tl.getD cand.toNat ((0 : Int), "")).1| < st.2.1) :
    nearestStep tl pos st cand = st := by
  simp only [nearestStep]
  rw [if_pos h, if_neg hd]

theorem nearestStep_take {tl : List (Int × String)} {pos : Int}
    {st : Option Nat × Int × Int} {cand : Int}
    (h : 0 ≤ cand ∧ cand < (tl.length : Int))
    (hd : |pos - (tl.getD cand.toNat ((0 : Int), "")).1| < st.2.1) :
    nearestStep tl pos st cand
      = (some cand.toNat, |pos - (tl.getD cand.toNat ((0 : Int), "")).1|,
         pos - (tl.getD cand.toNat ((0 : Int), "")).1) := by
  simp only [nearestStep]
  rw [if_pos h, if_pos hd]

/-- The `(k-1, k)` comparison of `nearest_tss` attains the global minimum
of `|pos - tss|` over the whole sorted list, with equal-distance ties
going to the smaller TSS — provided some TSS is within `10^18 - 1` of
`pos` (the `10**18` sentinel). -/
theorem nearest_tss_spec (tl : List (Int × String)) (pos : Int)
    (hsort : (tl.map (fun q => q.1)).Pairwise (fun s t => s ≤ t))
    (hb : ∃ q ∈ tl, |pos - q.1| < 10 ^ 18) :
    ∃ (i : Nat) (hi : i < tl.length),
      nearest_tss tl pos = ((tl.get ⟨i, hi⟩).2, pos - (tl.get ⟨i, hi⟩).1)
      ∧ (∀ (j : Nat) (hj : j < tl.length),
          |pos - (tl.get ⟨i, hi⟩).1| ≤ |pos - (tl.get ⟨j, hj⟩).1|)
      ∧ (∀ (j : Nat) (hj : j < tl.length),
          |pos - (tl.get ⟨j, hj⟩).1| = |pos - (tl.get ⟨i, hi⟩).1| →
          (tl.get ⟨i, hi⟩).1 ≤ (tl.get ⟨j, hj⟩).1) := by
  obtain ⟨q0, hq0m, hq0b⟩ := hb
  obtain ⟨j0, hj0, hj0v⟩ := List.getElem_of_mem hq0m
  have hne : tl ≠ [] := List.ne_nil_of_mem hq0m
  have hlen0 : 0 < tl.length := List.length_pos.mpr hne
  have hlmap : (tl.map (fun q => q.1)).length = tl.length := List.length_map _ _
  have hie : ¬ tl.isEmpty = true := by simpa [List.isEmpty_iff] using hne
  have hbs := bisect_left_spec (tl.map (fun q => q.1)) pos hsort
  have hKle : bisect_left (tl.map (fun q => q.1)) pos ≤ tl.length := by
    rw [← hlmap]
    exact hbs.1
  have hlo : ∀ (j : Nat) (hj : j < tl.length),
      j < bisect_left (tl.map (fun q => q.1)) pos → (tl.get ⟨j, hj⟩).1 < pos := by
    intro j hj hjk
    have hj' : j < (tl.map (fun q => q.1)).length := by rw [hlmap]; exact hj
    have := hbs.2.1 j hj' hjk
    simpa [List.get_eq_getElem, List.getElem_map] using this
  have hhi : ∀ (j : Nat) (hj : j < tl.length),
      bisect_left (tl.map (fun q => q.1)) pos ≤ j → pos ≤ (tl.get ⟨j, hj⟩).1 := by
    intro j hj hjk
    have hj' : j < (tl.map (fun q => q.1)).length := by rw [hlmap]; exact hj
    have := hbs.2.2 j hj' hjk
    simpa [List.get_eq_getElem, List.getElem_map] using this
  have hmono : ∀ (i j : Nat) (hi : i < tl.length) (hj : j < tl.length), i ≤ j →
      (tl.get ⟨i, hi⟩).1 ≤ (tl.get ⟨j, hj⟩).1 := by
    intro i j hi hj hij
    have hj' : j < (tl.map (fun q => q.1)).length := by rw [hlmap]; exact hj
    have := @sorted_get_mono (tl.map (fun q => q.1)) hsort i j hij hj'
    simpa [List.get_eq_getElem, List.getElem_map] using this
  have hq0get : (tl.get ⟨j0, hj0⟩).1 = q0.1 := by
    rw [List.get_eq_getElem, hj0v]
  simp only [nearest_tss]
  rw [if_neg hie]
  obtain ⟨K, hKdef⟩ : ∃ K, K = bisect_left (tl.map (fun q => q.1)) pos := ⟨_, rfl⟩
  rw [← hKdef] at hKle hlo hhi ⊢
  rcases Nat.eq_zero_or_pos K with hK0 | hKpos
  · -- insertion point 0: every TSS is ≥ pos, nearest is index 0
    subst hK0
    have hpos0 : pos ≤ (tl.get ⟨0, hlen0⟩).1 := hhi 0 hlen0 (by omega)
    have hminall : ∀ (j : Nat) (hj : j < tl.length),
        |pos - (tl.get ⟨0, hlen0⟩).1| ≤ |pos - (tl.get ⟨j, hj⟩).1| := by
      intro j hj
      have hmj := hmono 0 j hlen0 hj (Nat.zero_le _)
      rw [abs_of_nonpos (by omega), abs_of_nonpos (by omega)]
      omega
    have hd0 : |pos - (tl.get ⟨0, hlen0⟩).1| < 10 ^ 18 := by
      have := hminall j0 hj0
      rw [hq0get] at this
      omega
    have hg0 : tl.getD (((0 : Nat) : Int)).toNat ((0 : Int), "") = tl.get ⟨0, hlen0⟩ := by
      rw [show (((0 : Nat) : Int)).toNat = 0 from rfl, List.getD_eq_getElem _ _ hlen0]
      rfl
    have hst1 : nearestStep tl pos (none, 10 ^ 18, 0) (((0 : Nat) : Int) - 1)
        = (none, 10 ^ 18, 0) := nearestStep_invalid (by omega)
    have hst2 : nearestStep tl pos (none, 10 ^ 18, 0) ((0 : Nat) : Int)
        = (some 0, |pos - (tl.get ⟨0, hlen0⟩).1|, pos - (tl.get ⟨0, hlen0⟩).1) := by
      rw [nearestStep_take ⟨by omega, by omega⟩ (by rw [hg0]; exact hd0), hg0]
      rfl
    rw [List.foldl_cons, hst1, List.foldl_cons, hst2, List.foldl_nil]
    refine ⟨0, hlen0, ?_, hminall, ?_⟩
    · show ((tl.getD 0 ((0 : Int), "")).2, pos - (tl.get ⟨0, hlen0⟩).1)
        = ((tl.get ⟨0, hlen0⟩).2, pos - (tl.get ⟨0, hlen0⟩).1)
      rw [List.getD_eq_getElem _ _ hlen0]
      rfl
    · intro j hj _
      exact hmono 0 j hlen0 hj (Nat.zero_le _)
  · rcases Nat.lt_or_ge K tl.length with hKlt | hKge
    · -- interior insertion point: compare k-1 and k
      have hK1 : K - 1 < tl.length := by omega
      have hKlen : K < tl.length := hKlt
      have ht1pos : (tl.get ⟨K - 1, hK1⟩).1 < pos := hlo _ hK1 (by omega)
      have ht2pos : pos ≤ (tl.get ⟨K, hKlen⟩).1 := hhi _ hKlen (by omega)
      have hminlow : ∀ (j : Nat) (hj : j < tl.length), j < K →
          |pos - (tl.get ⟨K - 1, hK1⟩).1| ≤ |pos - (tl.get ⟨j, hj⟩).1| := by
        intro j hj hjK
        have hmj := hmono j _ hj hK1 (by omega)
        have htj := hlo j hj hjK
        rw [abs_of_pos (by omega), abs_of_pos (by omega)]
        omega
      have hminhigh : ∀ (j : Nat) (hj : j < tl.length), K ≤ j →
          |pos - (tl.get ⟨K, hKlen⟩).1| ≤ |pos - (tl.get ⟨j, hj⟩).1| := by
        intro j hj hjK
        have hmj := hmono _ j hKlen hj hjK
        have htj := hhi j hj hjK
        rw [abs_of_nonpos (by omega), abs_of_nonpos (by omega)]
        omega
      have hg1 : tl.getD (((K : Nat) : Int) - 1).toNat ((0 : Int), "")
          = tl.get ⟨K - 1, hK1⟩ := by
        rw [show (((K : Nat) : Int) - 1).toNat = K - 1 from by omega,
          List.getD_eq_getElem _ _ hK1]
        rfl
      have hg2 : tl.getD ((K : Nat) : Int).toNat ((0 : Int), "")
          = tl.get ⟨K, hKlen⟩ := by
        rw [show (((K : Nat) : Int)).toNat = K from by omega,
          List.getD_eq_getElem _ _ hKlen]
        rfl
      by_cases hcmp : |pos - (tl.get ⟨K, hKlen⟩).1| < |pos - (tl.get ⟨K - 1, hK1⟩).1|
      · -- the right neighbour wins
        have hminall : ∀ (j : Nat) (hj : j < tl.length),
            |pos - (tl.get ⟨K, hKlen⟩).1| ≤ |pos - (tl.get ⟨j, hj⟩).1| := by
          intro j hj
          rcases Nat.lt_or_ge j K with hjK | hjK
          · exact le_trans (le_of_lt hcmp) (hminlow j hj hjK)
          · exact hminhigh j hj hjK
        have hd2 : |pos - (tl.get ⟨K, hKlen⟩).1| < 10 ^ 18 := by
          have := hminall j0 hj0
          rw [hq0get] at this
          omega
        have hst2eval : ∀ st : Option Nat × Int × Int,
            |pos - (tl.get ⟨K, hKlen⟩).1| < st.2.1 →
            nearestStep tl pos st ((K : Nat) : Int)
              = (some K, |pos - (tl.get ⟨K, hKlen⟩).1|,
                 pos - (tl.get ⟨K, hKlen⟩).1) := by
          intro st hst
          rw [nearestStep_take ⟨by omega, by omega⟩ (by rw [hg2]; exact hst), hg2]
          rw [show (((K : Nat) : Int)).toNat = K from by omega]
        by_cases hd1 : |pos - (tl.get ⟨K - 1, hK1⟩).1| < 10 ^ 18
        · have hst1 : nearestStep tl pos (none, 10 ^ 18, 0) (((K : Nat) : Int) - 1)
              = (some (K - 1), |pos - (tl.get ⟨K - 1, hK1⟩).1|,
                 pos - (tl.get ⟨K - 1, hK1⟩).1) := by
            rw [nearestStep_take ⟨by omega, by omega⟩ (by rw [hg1]; exact hd1), hg1]
            rw [show (((K : Nat) : Int) - 1).toNat = K - 1 from by omega]
          rw [List.foldl_cons, hst1, List.foldl_cons,
            hst2eval (some (K - 1), |pos - (tl.get ⟨K - 1, hK1⟩).1|,
              pos - (tl.get ⟨K - 1, hK1⟩).1) hcmp, List.foldl_nil]
          refine ⟨K, hKlen, ?_, hminall, ?_⟩
          · show ((tl.getD K ((0 : Int), "")).2, pos - (tl.get ⟨K, hKlen⟩).1)
              = ((tl.get ⟨K, hKlen⟩).2, pos - (tl.get ⟨K, hKlen⟩).1)
            rw [List.getD_eq_getElem _ _ hKlen]
            rfl
          · intro j hj hjeq
            rcases Nat.lt_or_ge j K with hjK | hjK
            · exfalso
              have := hminlow j hj hjK
              omega
            · exact hmono _ j hKlen hj hjK
        · have hst1 : nearestStep tl pos (none, 10 ^ 18, 0) (((K : Nat) : Int) - 1)
              = (none, 10 ^ 18, 0) :=
            nearestStep_skip ⟨by omega, by omega⟩ (by rw [hg1]; exact hd1)
          rw [List.foldl_cons, hst1, List.foldl_cons,
            hst2eval (none, 10 ^ 18, 0) hd2, List.foldl_nil]
          refine ⟨K, hKlen, ?_, hminall, ?_⟩
          · show ((tl.getD K ((0 : Int), "")).2, pos - (tl.get ⟨K, hKlen⟩).1)
              = ((tl.get ⟨K, hKlen⟩).2, pos - (tl.get ⟨K, hKlen⟩).1)
            rw [List.getD_eq_getElem _ _ hKlen]
            rfl
          · intro j hj hjeq
            rcases Nat.lt_or_ge j K with hjK | hjK
            · exfalso
              have := hminlow j hj hjK
              omega
            · exact hmono _ j hKlen hj hjK
      · -- the left neighbour wins (ties included)
        have hminall : ∀ (j : Nat) (hj : j < tl.length),
            |pos - (tl.get ⟨K - 1, hK1⟩).1| ≤ |pos - (tl.get ⟨j, hj⟩).1| := by
          intro j hj
          rcases Nat.lt_or_ge j K with hjK | hjK
          · exact hminlow j hj hjK
          · exact le_trans (not_lt.mp hcmp) (hminhigh j hj hjK)
        have hd1 : |pos - (tl.get ⟨K - 1, hK1⟩).1| < 10 ^ 18 := by
          have := hminall j0 hj0
          rw [hq0get] at this
          omega
        have hst1 : nearestStep tl pos (none, 10 ^ 18, 0) (((K : Nat) : Int) - 1)
            = (some (K - 1), |pos - (tl.get ⟨K - 1, hK1⟩).1|,
               pos - (tl.get ⟨K - 1, hK1⟩).1) := by
          rw [nearestStep_take ⟨by omega, by omega⟩ (by rw [hg1]; exact hd1), hg1]
          rw [show (((K : Nat) : Int) - 1).toNat = K - 1 from by omega]
        have hst2 : nearestStep tl pos
            (some (K - 1), |pos - (tl.get ⟨K - 1, hK1⟩).1|,
             pos - (tl.get ⟨K - 1, hK1⟩).1) ((K : Nat) : Int)
            = (some (K - 1), |pos - (tl.get ⟨K - 1, hK1⟩).1|,
               pos - (tl.get ⟨K - 1, hK1⟩).1) :=
          nearestStep_skip ⟨by omega, by omega⟩ (by rw [hg2]; exact hcmp)
        rw [List.foldl_cons, hst1, List.foldl_cons, hst2, List.foldl_nil]
        refine ⟨K - 1, hK1, ?_, hminall, ?_⟩
        · show ((tl.getD (K - 1) ((0 : Int), "")).2, pos - (tl.get ⟨K - 1, hK1⟩).1)
            = ((tl.get ⟨K - 1, hK1⟩).2, pos - (tl.get ⟨K - 1, hK1⟩).1)
          rw [List.getD_eq_getElem _ _ hK1]
          rfl
        · intro j hj hjeq
          rcases Nat.lt_or_ge j K with hjK | hjK
          · have htj := hlo j hj hjK
            rw [abs_of_pos (by omega), abs_of_pos (by omega)] at hjeq
            omega
          · have htj := hhi j hj hjK
            omega
    · -- insertion point at the end: nearest is the last element
      have hKeq : K = tl.length := by omega
      have hK1 : tl.length - 1 < tl.length := by omega
      have hminall : ∀ (j : Nat) (hj : j < tl.length),
          |pos - (tl.get ⟨tl.length - 1, hK1⟩).1| ≤ |pos - (tl.get ⟨j, hj⟩).1| := by
        intro j hj
        have hmj := hmono j _ hj hK1 (by omega)
        have htj := hlo j hj (by omega)
        have htl := hlo _ hK1 (by omega)
        rw [abs_of_pos (by omega), abs_of_pos (by omega)]
        omega
      have hd1 : |pos - (tl.get ⟨tl.length - 1, hK1⟩).1| < 10 ^ 18 := by
        have := hminall j0 hj0
        rw [hq0get] at this
        omega
      have hg1 : tl.getD (((K : Nat) : Int) - 1).toNat ((0 : Int), "")
          = tl.get ⟨tl.length - 1, hK1⟩ := by
        rw [show (((K : Nat) : Int) - 1).toNat = tl.length - 1 from by omega,
          List.getD_eq_getElem _ _ hK1]
        rfl
      have hst1 : nearestStep tl pos (none, 10 ^ 18, 0) (((K : Nat) : Int) - 1)
          = (some (tl.length - 1), |pos - (tl.get ⟨tl.length - 1, hK1⟩).1|,
             pos - (tl.get ⟨tl.length - 1, hK1⟩).1) := by
        rw [nearestStep_take ⟨by omega, by omega⟩ (by rw [hg1]; exact hd1), hg1]
        rw [show (((K : Nat) : Int) - 1).toNat = tl.length - 1 from by omega]
      have hst2 : nearestStep tl pos
          (some (tl.length - 1), |pos - (tl.get ⟨tl.length - 1, hK1⟩).1|,
           pos - (tl.get ⟨tl.length - 1, hK1⟩).1) ((K : Nat) : Int)
          = (some (tl.length - 1), |pos - (tl.get ⟨tl.length - 1, hK1⟩).1|,
             pos - (tl.get ⟨tl.length - 1, hK1⟩).1) :=
        nearestStep_invalid (by omega)
      rw [List.foldl_cons, hst1, List.foldl_cons, hst2, List.foldl_nil]
      refine ⟨tl.length - 1, hK1, ?_, hminall, ?_⟩
      · show ((tl.getD (tl.length - 1) ((0 : Int), "")).2,
            pos - (tl.get ⟨tl.length - 1, hK1⟩).1)
          = ((tl.get ⟨tl.length - 1, hK1⟩).2, pos - (tl.get ⟨tl.length - 1, hK1⟩).1)
        rw [List.getD_eq_getElem _ _ hK1]
        rfl
      · intro j hj hjeq
        have htj := hlo j hj (by omega)
        have htl := hlo _ hK1 (by omega)
        rw [abs_of_pos (by omega), abs_of_pos (by omega)] at hjeq
        omega


/-! ### C9 -/

theorem build_tss_index_sorted (genes : List GeneRecord) (c : String) :
    ((build_tss_index genes c).map (fun q => q.1)).Pairwise (fun s t => s ≤ t) := by
  rw [List.pairwise_map]
  have h := @List.sorted_mergeSort (Int × String) (fun a b => decide (a.1 ≤ b.1))
    (by intro a b d h1 h2; simp only [decide_eq_true_eq] at h1 h2 ⊢; omega)
    (by intro a b; simp only [Bool.or_eq_true, decide_eq_true_eq]; omega)
    ((genes.filter (fun g => decide (g.chrom = c))).map (fun g => (g.tss, g.gene_name)))
  exact h.imp (by intro a b hb; simpa using hb)

theorem mem_build_tss_index (genes : List GeneRecord) (c : String)
    (q : Int × String) :
    q ∈ build_tss_index genes c
      ↔ ∃ g ∈ genes, g.chrom = c ∧ q = (g.tss, g.gene_name) := by
  unfold build_tss_index
  rw [List.mem_mergeSort, List.mem_map]
  constructor
  · rintro ⟨g, hg, hq⟩
    rw [List.mem_filter] at hg
    exact ⟨g, hg.1, by simpa using hg.2, hq.symm⟩
  · rintro ⟨g, hg, hc, hq⟩
    exact ⟨g, List.mem_filter.mpr ⟨hg, by simpa using hc⟩, hq.symm⟩

/-- C9 corrected, counterexample to the claim as stated: the peak `[0,10)`
(center 5) is intergenic and its chromosome has exactly one gene, with TSS
`10^18 + 5`, so the claim requires that gene `g` with signed distance
`-10^18`.  The code returns the empty gene with distance 0, because the
candidate's distance `10^18` is not strictly below the `10**18` sentinel
initialising `best_dist` in `nearest_tss`. -/
theorem C9_counterexample_sentinel :
    build_tss_index [⟨"chr1", 10 ^ 18 + 5, 10 ^ 18 + 7, "+", "gid", "g", 10 ^ 18 + 5⟩]
        "chr1" = [((10 : Int) ^ 18 + 5, "g")]
    ∧ promoter_hits [("chr1", (0 : Int), (10 : Int))]
        [⟨"chr1", 10 ^ 18 + 5, 10 ^ 18 + 7, "+", "gid", "g", 10 ^ 18 + 5⟩] 2000 200 0 = []
    ∧ gene_hits [("chr1", (0 : Int), (10 : Int))]
        [⟨"chr1", 10 ^ 18 + 5, 10 ^ 18 + 7, "+", "gid", "g", 10 ^ 18 + 5⟩] 0 = []
    ∧ nearest_tss [((10 : Int) ^ 18 + 5, "g")] 5 = ("", 0)
    ∧ (annotateRow [("chr1", (0 : Int), (10 : Int))]
        [⟨"chr1", 10 ^ 18 + 5, 10 ^ 18 + 7, "+", "gid", "g", 10 ^ 18 + 5⟩] 2000 200 0
        ("chr1", (0 : Int), (10 : Int))).annot = "intergenic"
    ∧ (annotateRow [("chr1", (0 : Int), (10 : Int))]
        [⟨"chr1", 10 ^ 18 + 5, 10 ^ 18 + 7, "+", "gid", "g", 10 ^ 18 + 5⟩] 2000 200 0
        ("chr1", (0 : Int), (10 : Int))).gene = ""
    ∧ (annotateRow [("chr1", (0 : Int), (10 : Int))]
        [⟨"chr1", 10 ^ 18 + 5, 10 ^ 18 + 7, "+", "gid", "g", 10 ^ 18 + 5⟩] 2000 200 0
        ("chr1", (0 : Int), (10 : Int))).distance_to_TSS = "0"
    ∧ ("" : String) ≠ "g" := by
  have hbti : build_tss_index
      [⟨"chr1", 10 ^ 18 + 5, 10 ^ 18 + 7, "+", "gid", "g", 10 ^ 18 + 5⟩] "chr1"
      = [((10 : Int) ^ 18 + 5, "g")] := by
    unfold build_tss_index
    rw [show (([⟨"chr1", 10 ^ 18 + 5, 10 ^ 18 + 7, "+", "gid", "g", 10 ^ 18 + 5⟩]
        : List GeneRecord).filter (fun g => decide (g.chrom = "chr1"))).map
        (fun g => (g.tss, g.gene_name)) = [((10 : Int) ^ 18 + 5, "g")] from by decide]
    exact List.mergeSort_singleton _
  have hP : promoter_hits [("chr1", (0 : Int), (10 : Int))]
      [⟨"chr1", 10 ^ 18 + 5, 10 ^ 18 + 7, "+", "gid", "g", 10 ^ 18 + 5⟩] 2000 200 0
      = [] := by
    rw [promoter_hits, annotate_overlaps_eq_filter [("chr1", (0 : Int), (10 : Int))]
      (fun ch => group_by_chrom_intervals
        (build_promoters [⟨"chr1", 10 ^ 18 + 5, 10 ^ 18 + 7, "+", "gid", "g",
          10 ^ 18 + 5⟩] 2000 200) ch)
      (fun c => sortFeatsByStart_pairwise _) 0 ("chr1", (0 : Int), (10 : Int)) (by decide)]
    rw [show group_by_chrom_intervals
        (build_promoters [⟨"chr1", 10 ^ 18 + 5, 10 ^ 18 + 7, "+", "gid", "g",
          10 ^ 18 + 5⟩] 2000 200) "chr1"
        = [⟨"chr1", 10 ^ 18 + 5 - 2000, 10 ^ 18 + 5 + 200, "g", 10 ^ 18 + 5⟩] from ?_]
    · decide
    · unfold group_by_chrom_intervals sortFeatsByStart
      rw [show (build_promoters [⟨"chr1", 10 ^ 18 + 5, 10 ^ 18 + 7, "+", "gid", "g",
          10 ^ 18 + 5⟩] 2000 200).filter (fun f => decide (f.chrom = "chr1"))
          = [⟨"chr1", 10 ^ 18 + 5 - 2000, 10 ^ 18 + 5 + 200, "g", 10 ^ 18 + 5⟩]
          from by decide]
      exact List.mergeSort_singleton _
  have hG : gene_hits [("chr1", (0 : Int), (10 : Int))]
      [⟨"chr1", 10 ^ 18 + 5, 10 ^ 18 + 7, "+", "gid", "g", 10 ^ 18 + 5⟩] 0 = [] := by
    rw [gene_hits, annotate_overlaps_eq_filter [("chr1", (0 : Int), (10 : Int))]
      (fun ch => group_by_chrom_intervals
        (geneBodies [⟨"chr1", 10 ^ 18 + 5, 10 ^ 18 + 7, "+", "gid", "g",
          10 ^ 18 + 5⟩]) ch)
      (fun c => sortFeatsByStart_pairwise _) 0 ("chr1", (0 : Int), (10 : Int)) (by decide)]
    rw [show group_by_chrom_intervals
        (geneBodies [⟨"chr1", 10 ^ 18 + 5, 10 ^ 18 + 7, "+", "gid", "g", 10 ^ 18 + 5⟩])
          "chr1"
        = [⟨"chr1", 10 ^ 18 + 5, 10 ^ 18 + 7, "g", 10 ^ 18 + 5⟩] from ?_]
    · decide
    · unfold group_by_chrom_intervals sortFeatsByStart
      rw [show (geneBodies [⟨"chr1", 10 ^ 18 + 5, 10 ^ 18 + 7, "+", "gid", "g",
          10 ^ 18 + 5⟩]).filter (fun f => decide (f.chrom = "chr1"))
          = [⟨"chr1", 10 ^ 18 + 5, 10 ^ 18 + 7, "g", 10 ^ 18 + 5⟩] from by decide]
      exact List.mergeSort_singleton _
  have hbl : bisect_left ([((10 : Int) ^ 18 + 5, "g")].map (fun q => q.1)) 5 = 0 := by
    rw [show ([((10 : Int) ^ 18 + 5, "g")].map (fun q => q.1)) = [(10 : Int) ^ 18 + 5]
      from rfl]
    rw [bisect_left, show ([(10 : Int) ^ 18 + 5]).length = 1 from rfl]
    rw [bisectLoop, dif_pos (by decide : (0 : Nat) < 1), if_neg (by decide)]
    rw [bisectLoop, dif_neg (by decide : ¬ (0 : Nat) < (0 + 1) / 2)]
  have hnt : nearest_tss [((10 : Int) ^ 18 + 5, "g")] 5 = ("", 0) := by
    simp only [nearest_tss]
    rw [if_neg (by decide), hbl]
    decide
  have hrow : annotateRow [("chr1", (0 : Int), (10 : Int))]
      [⟨"chr1", 10 ^ 18 + 5, 10 ^ 18 + 7, "+", "gid", "g", 10 ^ 18 + 5⟩] 2000 200 0
      ("chr1", (0 : Int), (10 : Int))
      = ⟨"peak_0", "chr1", "0", "10", "intergenic", "", "0"⟩ := by
    simp only [annotateRow]
    rw [if_neg (not_not_intro hP), if_neg (not_not_intro hG), hbti]
    rw [if_neg (by decide : ¬ ([((10 : Int) ^ 18 + 5, "g")] = []))]
    rw [show Int.fdiv ((("chr1", (0 : Int), (10 : Int)) : GenomicInterval).2.1
        + (("chr1", (0 : Int), (10 : Int)) : GenomicInterval).2.2) 2 = 5 from by decide]
    rw [hnt]
    decide
  refine ⟨hbti, hP, hG, hnt, ?_, ?_, ?_, by decide⟩
  · rw [hrow]
  · rw [hrow]
  · rw [hrow]

/-- C9 amended: for a peak at index `idx` with neither promoter nor
gene-body hits, the row is `intergenic`, and — provided some gene of the
peak's chromosome has its TSS within `10^18 - 1` of the peak center (the
`10**18` sentinel) — the assigned gene is one whose TSS minimises
`|center - tss|` over the whole per-chromosome TSS index (whose entries
are exactly the genes of that chromosome, as the first two conjuncts pin
down), equal-distance ties going to the smaller-coordinate TSS, with
reported distance the signed `center - tss`.  If the chromosome has no
genes at all, the gene is the empty string and the distance is 0. -/
theorem C9_nearest_gene_amended (peaks : List GenomicInterval)
    (genes : List GeneRecord) (pUp pDown : Int) (idx : Nat)
    (p : GenomicInterval) (hp : peaks[idx]? = some p)
    (hP : promoter_hits peaks genes pUp pDown idx = [])
    (hG : gene_hits peaks genes idx = []) :
    ((annotate_peaks peaks genes pUp pDown)[idx]?
        = some (annotateRow peaks genes pUp pDown idx p))
    ∧ (∀ q ∈ build_tss_index genes p.1,
        ∃ g ∈ genes, g.chrom = p.1 ∧ q = (g.tss, g.gene_name))
    ∧ (∀ g ∈ genes, g.chrom = p.1 →
        (g.tss, g.gene_name) ∈ build_tss_index genes p.1)
    ∧ ((∃ q ∈ build_tss_index genes p.1,
          |Int.fdiv (p.2.1 + p.2.2) 2 - q.1| < 10 ^ 18) →
        ∃ (i : Nat) (hi : i < (build_tss_index genes p.1).length),
          (annotateRow peaks genes pUp pDown idx p).annot = "intergenic"
          ∧ (annotateRow peaks genes pUp pDown idx p).gene
              = ((build_tss_index genes p.1).get ⟨i, hi⟩).2
          ∧ (annotateRow peaks genes pUp pDown idx p).distance_to_TSS
              = toString (Int.fdiv (p.2.1 + p.2.2) 2
                  - ((build_tss_index genes p.1).get ⟨i, hi⟩).1)
          ∧ (∀ (j : Nat) (hj : j < (build_tss_index genes p.1).length),
              |Int.fdiv (p.2.1 + p.2.2) 2
                  - ((build_tss_index genes p.1).get ⟨i, hi⟩).1|
                ≤ |Int.fdiv (p.2.1 + p.2.2) 2
                  - ((build_tss_index genes p.1).get ⟨j, hj⟩).1|)
          ∧ (∀ (j : Nat) (hj : j < (build_tss_index genes p.1).length),
              |Int.fdiv (p.2.1 + p.2.2) 2
                  - ((build_tss_index genes p.1).get ⟨j, hj⟩).1|
                = |Int.fdiv (p.2.1 + p.2.2) 2
                  - ((build_tss_index genes p.1).get ⟨i, hi⟩).1| →
              ((build_tss_index genes p.1).get ⟨i, hi⟩).1
                ≤ ((build_tss_index genes p.1).get ⟨j, hj⟩).1))
    ∧ ((∀ g ∈ genes, g.chrom ≠ p.1) →
        (annotateRow peaks genes pUp pDown idx p).annot = "intergenic"
        ∧ (annotateRow peaks genes pUp pDown idx p).gene = ""
        ∧ (annotateRow peaks genes pUp pDown idx p).distance_to_TSS = "0") := by
  refine ⟨annotate_peaks_getElem peaks genes pUp pDown hp,
    fun q hq => (mem_build_tss_index genes p.1 q).mp hq,
    fun g hg hc => (mem_build_tss_index genes p.1 (g.tss, g.gene_name)).mpr
      ⟨g, hg, hc, rfl⟩, ?_, ?_⟩
  · intro hb
    have hne' : ¬ build_tss_index genes p.1 = [] := by
      intro h
      obtain ⟨q0, hq0m, -⟩ := hb
      rw [h] at hq0m
      exact List.not_mem_nil _ hq0m
    obtain ⟨i, hi, heq, hmin, htie⟩ := nearest_tss_spec (build_tss_index genes p.1)
      (Int.fdiv (p.2.1 + p.2.2) 2) (build_tss_index_sorted genes p.1) hb
    have hrow : annotateRow peaks genes pUp pDown idx p
        = ⟨"peak_" ++ toString idx, p.1, toString p.2.1, toString p.2.2, "intergenic",
          ((build_tss_index genes p.1).get ⟨i, hi⟩).2,
          toString (Int.fdiv (p.2.1 + p.2.2) 2
            - ((build_tss_index genes p.1).get ⟨i, hi⟩).1)⟩ := by
      simp only [annotateRow]
      rw [if_neg (not_not_intro hP), if_neg (not_not_intro hG), if_neg hne', heq]
    exact ⟨i, hi, by rw [hrow], by rw [hrow], by rw [hrow], hmin, htie⟩
  · intro hnone
    have hbe : build_tss_index genes p.1 = [] := by
      unfold build_tss_index
      rw [show genes.filter (fun g => decide (g.chrom = p.1)) = [] from
        List.filter_eq_nil_iff.mpr (by intro g hg; simpa using hnone g hg)]
      rw [List.map_nil]
      exact List.mergeSort_nil
    have hrow : annotateRow peaks genes pUp pDown idx p
        = ⟨"peak_" ++ toString idx, p.1, toString p.2.1, toString p.2.2, "intergenic",
          "", toString (0 : Int)⟩ := by
      simp only [annotateRow]
      rw [if_neg (not_not_intro hP), if_neg (not_not_intro hG), if_pos hbe]
    refine ⟨by rw [hrow], by rw [hrow], ?_⟩
    rw [hrow]
    show toString (0 : Int) = "0"
    decide

/-- C9 amended, witness: the peak `[0,10)` on `chr1` with a single gene
at `[5000, 6000)` (TSS 5000) overlaps neither its promoter window
`[3000, 5200)` nor its body, so it is intergenic, and the nearest-TSS
fallback is exercised with the TSS well inside the sentinel bound. -/
theorem C9_witness :
    ([("chr1", (0 : Int), (10 : Int))] : List GenomicInterval)[0]?
        = some ("chr1", (0 : Int), (10 : Int))
    ∧ promoter_hits [("chr1", (0 : Int), (10 : Int))]
        [⟨"chr1", 5000, 6000, "+", "gid", "g", 5000⟩] 2000 200 0 = []
    ∧ gene_hits [("chr1", (0 : Int), (10 : Int))]
        [⟨"chr1", 5000, 6000, "+", "gid", "g", 5000⟩] 0 = []
    ∧ ((∃ q ∈ build_tss_index [⟨"chr1", 5000, 6000, "+", "gid", "g", 5000⟩]
          (("chr1", (0 : Int), (10 : Int)) : GenomicInterval).1,
        |Int.fdiv ((("chr1", (0 : Int), (10 : Int)) : GenomicInterval).2.1
          + (("chr1", (0 : Int), (10 : Int)) : GenomicInterval).2.2) 2 - q.1| < 10 ^ 18) →
        ∃ (i : Nat) (hi : i < (build_tss_index
            [⟨"chr1", 5000, 6000, "+", "gid", "g", 5000⟩]
            (("chr1", (0 : Int), (10 : Int)) : GenomicInterval).1).length),
          (annotateRow [("chr1", (0 : Int), (10 : Int))]
              [⟨"chr1", 5000, 6000, "+", "gid", "g", 5000⟩] 2000 200 0
              ("chr1", (0 : Int), (10 : Int))).annot = "intergenic"
          ∧ (annotateRow [("chr1", (0 : Int), (10 : Int))]
              [⟨"chr1", 5000, 6000, "+", "gid", "g", 5000⟩] 2000 200 0
              ("chr1", (0 : Int), (10 : Int))).gene
              = ((build_tss_index [⟨"chr1", 5000, 6000, "+", "gid", "g", 5000⟩]
                  (("chr1", (0 : Int), (10 : Int)) : GenomicInterval).1).get ⟨i, hi⟩).2
          ∧ (annotateRow [("chr1", (0 : Int), (10 : Int))]
              [⟨"chr1", 5000, 6000, "+", "gid", "g", 5000⟩] 2000 200 0
              ("chr1", (0 : Int), (10 : Int))).distance_to_TSS
              = toString (Int.fdiv ((("chr1", (0 : Int), (10 : Int))
                  : GenomicInterval).2.1
                  + (("chr1", (0 : Int), (10 : Int)) : GenomicInterval).2.2) 2
                  - ((build_tss_index [⟨"chr1", 5000, 6000, "+", "gid", "g", 5000⟩]
                    (("chr1", (0 : Int), (10 : Int)) : GenomicInterval).1).get
                      ⟨i, hi⟩).1)
          ∧ (∀ (j : Nat) (hj : j < (build_tss_index
                [⟨"chr1", 5000, 6000, "+", "gid", "g", 5000⟩]
                (("chr1", (0 : Int), (10 : Int)) : GenomicInterval).1).length),
              |Int.fdiv ((("chr1", (0 : Int), (10 : Int)) : GenomicInterval).2.1
                  + (("chr1", (0 : Int), (10 : Int)) : GenomicInterval).2.2) 2
                  - ((build_tss_index [⟨"chr1", 5000, 6000, "+", "gid", "g", 5000⟩]
                    (("chr1", (0 : Int), (10 : Int)) : GenomicInterval).1).get
                      ⟨i, hi⟩).1|
                ≤ |Int.fdiv ((("chr1", (0 : Int), (10 : Int)) : GenomicInterval).2.1
                  + (("chr1", (0 : Int), (10 : Int)) : GenomicInterval).2.2) 2
                  - ((build_tss_index [⟨"chr1", 5000, 6000, "+", "gid", "g", 5000⟩]
                    (("chr1", (0 : Int), (10 : Int)) : GenomicInterval).1).get
                      ⟨j, hj⟩).1|)
          ∧ (∀ (j : Nat) (hj : j < (build_tss_index
                [⟨"chr1", 5000, 6000, "+", "gid", "g", 5000⟩]
                (("chr1", (0 : Int), (10 : Int)) : GenomicInterval).1).length),
              |Int.fdiv ((("chr1", (0 : Int), (10 : Int)) : GenomicInterval).2.1
                  + (("chr1", (0 : Int), (10 : Int)) : GenomicInterval).2.2) 2
                  - ((build_tss_index [⟨"chr1", 5000, 6000, "+", "gid", "g", 5000⟩]
                    (("chr1", (0 : Int), (10 : Int)) : GenomicInterval).1).get
                      ⟨j, hj⟩).1|
                = |Int.fdiv ((("chr1", (0 : Int), (10 : Int)) : GenomicInterval).2.1
                  + (("chr1", (0 : Int), (10 : Int)) : GenomicInterval).2.2) 2
                  - ((build_tss_index [⟨"chr1", 5000, 6000, "+", "gid", "g", 5000⟩]
                    (("chr1", (0 : Int), (10 : Int)) : GenomicInterval).1).get
                      ⟨i, hi⟩).1| →
              ((build_tss_index [⟨"chr1", 5000, 6000, "+", "gid", "g", 5000⟩]
                  (("chr1", (0 : Int), (10 : Int)) : GenomicInterval).1).get
                    ⟨i, hi⟩).1
                ≤ ((build_tss_index [⟨"chr1", 5000, 6000, "+", "gid", "g", 5000⟩]
                  (("chr1", (0 : Int), (10 : Int)) : GenomicInterval).1).get
                    ⟨j, hj⟩).1)) := by
  have hP : promoter_hits [("chr1", (0 : Int), (10 : Int))]
      [⟨"chr1", 5000, 6000, "+", "gid", "g", 5000⟩] 2000 200 0 = [] := by
    rw [promoter_hits, annotate_overlaps_eq_filter [("chr1", (0 : Int), (10 : Int))]
      (fun ch => group_by_chrom_intervals
        (build_promoters [⟨"chr1", 5000, 6000, "+", "gid", "g", 5000⟩] 2000 200) ch)
      (fun c => sortFeatsByStart_pairwise _) 0 ("chr1", (0 : Int), (10 : Int)) (by decide)]
    rw [show group_by_chrom_intervals
        (build_promoters [⟨"chr1", 5000, 6000, "+", "gid", "g", 5000⟩] 2000 200) "chr1"
        = [⟨"chr1", 3000, 5200, "g", 5000⟩] from ?_]
    · decide
    · unfold group_by_chrom_intervals sortFeatsByStart
      rw [show (build_promoters [⟨"chr1", 5000, 6000, "+", "gid", "g", 5000⟩]
          2000 200).filter (fun f => decide (f.chrom = "chr1"))
          = [⟨"chr1", 3000, 5200, "g", 5000⟩] from by decide]
      exact List.mergeSort_singleton _
  have hG : gene_hits [("chr1", (0 : Int), (10 : Int))]
      [⟨"chr1", 5000, 6000, "+", "gid", "g", 5000⟩] 0 = [] := by
    rw [gene_hits, annotate_overlaps_eq_filter [("chr1", (0 : Int), (10 : Int))]
      (fun ch => group_by_chrom_intervals
        (geneBodies [⟨"chr1", 5000, 6000, "+", "gid", "g", 5000⟩]) ch)
      (fun c => sortFeatsByStart_pairwise _) 0 ("chr1", (0 : Int), (10 : Int)) (by decide)]
    rw [show group_by_chrom_intervals
        (geneBodies [⟨"chr1", 5000, 6000, "+", "gid", "g", 5000⟩]) "chr1"
        = [⟨"chr1", 5000, 6000, "g", 5000⟩] from ?_]
    · decide
    · unfold group_by_chrom_intervals sortFeatsByStart
      rw [show (geneBodies [⟨"chr1", 5000, 6000, "+", "gid", "g", 5000⟩]).filter
          (fun f => decide (f.chrom = "chr1"))
          = [⟨"chr1", 5000, 6000, "g", 5000⟩] from by decide]
      exact List.mergeSort_singleton _
  have h := C9_nearest_gene_amended [("chr1", (0 : Int), (10 : Int))]
    [⟨"chr1", 5000, 6000, "+", "gid", "g", 5000⟩] 2000 200 0
    ("chr1", (0 : Int), (10 : Int)) (by decide) hP hG
  exact ⟨by decide, hP, hG, h.2.2.2.1⟩

end ATAC
